import Mathlib

/-!
Read-only layer nodes (`layer/ro_layer.go`).

A shallow embedding of the read-only layer node of the layer store: the node
with its parent chain, the size and depth walks over that chain, the
reference bookkeeping (`getReference`, `hasReference`, `hasReferences`,
`deleteReference`), the unverified diff `TarStreamFrom`, the verified
reader that `TarStream` wraps around the stream of the layer store, the
methods `ChainID`, `DiffID` and `Parent`, and `storeLayer`, which writes a node
into a metadata transaction.

Conventions of the embedding.

* A Go pointer `*roLayer` that may be `nil` is an `Option roLayer`; a chain of
  parent pointers is therefore finite by construction.
* `int64` values are integers reduced by `wrapInt64` after every addition, the
  two's-complement wrap-around of Go.
* `int` (the result of `depth`) is an unbounded integer: a chain of `n` nodes
  occupies `n` distinct heap objects, so `n` stays far below the range of
  `int` on every platform and the addition in `depth` cannot wrap.
* A Go `error` is an `Option GoError`, `none` being `nil`.
* A value of the interface `Layer` used as a key of `references` is a `Layer`
  below: the `nil` interface or a pointer, identified by its address.
* The map `references` is an `Option (Finset Layer)`: `none` is the `nil` map
  (never made), `some s` a map holding exactly the keys in `s`.
* Collaborators that are interfaces in Go (the metadata transaction, the
  verifier of a digest) are records of functions over a state; the calls made
  on them are read off a journal that a wrapper keeps beside that state.
-/

namespace Layer17

/-! ## Data model -/

/-- Chain identifiers and diff identifiers are digests, kept as strings. -/
abbrev ChainID := String

/-- The digest of the content of one layer. -/
abbrev DiffID := String

/-- Go errors: the end-of-stream value `io.EOF`, an error made by
`fmt.Errorf` with its message, and any other error value, told apart by a
tag. -/
inductive GoError where
  | EOF
  | errorf (msg : String)
  | other (tag : Nat)
deriving DecidableEq, Repr

/-- Values of the interface `Layer`: the `nil` interface, a pointer to a
`referencedCacheLayer` (what `getReference` hands out) or a pointer to another
implementation, each pointer identified by its address. -/
inductive Layer where
  | nilLayer
  | cacheRef (addr : Nat)
  | otherPtr (addr : Nat)
deriving DecidableEq, Repr

/-- The fields of `distribution.Descriptor` that the layer code inspects. -/
structure Descriptor where
  MediaType : String
  Size : Int
  Digest : String
deriving DecidableEq, Repr

/-- The struct `roLayer`. The field `layerStore` is passed to the operations
that use it (the driver and the tar stream source) instead of being stored. -/
structure roLayer where
  chainID : ChainID
  diffID : DiffID
  parent : Option roLayer
  cacheID : String
  size : Int
  descriptor : Descriptor
  referenceCount : Int
  references : Option (Finset Layer)

/-- Two's-complement reduction of an integer to the range of `int64`. -/
def wrapInt64 (x : Int) : Int :=
  (x + 2 ^ 63) % 2 ^ 64 - 2 ^ 63

/-- The values an `int64` can hold. -/
def inInt64 (x : Int) : Prop :=
  -(2 ^ 63) ≤ x ∧ x < 2 ^ 63

instance (x : Int) : Decidable (inInt64 x) := by
  unfold inInt64; exact inferInstance

namespace roLayer

/-! ## Walks over the parent chain -/

/-- The nodes visited by `for pl := rl.parent; pl != nil; pl = pl.parent`,
nearest first. -/
def ancestors : roLayer → List roLayer
  | { parent := none, .. } => []
  | { parent := some p, .. } => p :: ancestors p

/-- The node itself followed by its ancestors. -/
def chain (rl : roLayer) : List roLayer :=
  rl :: rl.ancestors

/-- The method `DiffSize`: the size of the node itself, with a `nil` error. -/
def DiffSize (rl : roLayer) : Int × Option GoError :=
  (rl.size, none)

/-- The method `Size`. The named results start as `(0, nil)`; with a parent
they are assigned from the parent's `Size`, which is returned as it is when its
error is not `nil`; otherwise the result is `size + rl.size` in `int64`. -/
def Size : roLayer → Int × Option GoError
  | { parent := none, size := s, .. } => (wrapInt64 (0 + s), none)
  | { parent := some p, size := s, .. } =>
    match Size p with
    | (sz, some e) => (sz, some e)
    | (sz, none) => (wrapInt64 (sz + s), none)

/-- The method `depth`. -/
def depth : roLayer → Int
  | { parent := none, .. } => 1
  | { parent := some p, .. } => depth p + 1

/-- The exact (unbounded) sum of `DiffSize` over a node and its ancestors. -/
def sumDiffSize (rl : roLayer) : Int :=
  (rl.chain.map fun l => (DiffSize l).1).sum

end roLayer

/-! ## Reference bookkeeping -/

/-- The allocator of the Go runtime as far as the reference handles see it:
every address below `next` has been handed out, and `new` objects get the
address `next`. A pointer to a new object therefore differs from every pointer
handed out before, as Go guarantees for objects of non-zero size. -/
structure Heap where
  next : Nat
deriving DecidableEq, Repr

/-- The handles stored in the node were all allocated on this heap. -/
def Heap.covers (hp : Heap) (rl : roLayer) : Prop :=
  ∀ refs, rl.references = some refs → ∀ a, Layer.cacheRef a ∈ refs → a < hp.next

namespace roLayer

/-- The method `getReference`: allocates a `referencedCacheLayer` around the
node, stores the pointer as a key of `references` and returns it. Storing into
a `nil` map panics, which is the result `none`. -/
def getReference (rl : roLayer) (hp : Heap) : Option (Layer × roLayer × Heap) :=
  match rl.references with
  | none => none
  | some refs =>
    some (Layer.cacheRef hp.next,
      { rl with references := some (insert (Layer.cacheRef hp.next) refs) },
      { next := hp.next + 1 })

/-- The method `hasReference`: a lookup in `references`, `false` on a `nil`
map. -/
def hasReference (rl : roLayer) (ref : Layer) : Bool :=
  match rl.references with
  | none => false
  | some refs => decide (ref ∈ refs)

/-- The value of `len(rl.references)`, 0 on a `nil` map. -/
def lenReferences (rl : roLayer) : Nat :=
  match rl.references with
  | none => 0
  | some refs => refs.card

/-- The method `hasReferences`. -/
def hasReferences (rl : roLayer) : Bool :=
  decide (rl.lenReferences > 0)

/-- The method `deleteReference`: the builtin `delete`, which does nothing on
a `nil` map or for a key that is not in the map. -/
def deleteReference (rl : roLayer) (ref : Layer) : roLayer :=
  match rl.references with
  | none => rl
  | some refs => { rl with references := some (refs.erase ref) }

/-- The handles returned by `n` calls of `getReference` in a row, first call
first, with the node and the heap after the last call. -/
def acquireN : Nat → roLayer → Heap → Option (List Layer × roLayer × Heap)
  | 0, rl, hp => some ([], rl, hp)
  | n + 1, rl, hp =>
    match rl.getReference hp with
    | none => none
    | some (h, rl1, hp1) =>
      match acquireN n rl1 hp1 with
      | none => none
      | some (hs, rl2, hp2) => some (h :: hs, rl2, hp2)

/-- A sequence of `deleteReference` calls, first call first. -/
def releaseAll (ds : List Layer) (rl : roLayer) : roLayer :=
  ds.foldl deleteReference rl

end roLayer

/-- One call of the reference protocol. -/
inductive RefOp where
  | acquire
  | release (ref : Layer)
deriving DecidableEq, Repr

/-- A sequence of `getReference` and `deleteReference` calls on a node, first
call first; `none` when a call panics. -/
def applyOps : List RefOp → roLayer → Heap → Option (roLayer × Heap)
  | [], rl, hp => some (rl, hp)
  | RefOp.acquire :: ops, rl, hp =>
    match rl.getReference hp with
    | none => none
    | some (_, rl1, hp1) => applyOps ops rl1 hp1
  | RefOp.release ref :: ops, rl, hp => applyOps ops (rl.deleteReference ref) hp

/-! ## The unverified diff -/

namespace roLayer

/-- The loop of `TarStreamFrom` as entered with `pl := rl.parent`: the value of
`parentCacheID` when the loop ends, which is the `cacheID` of the first visited
node whose `chainID` is `parent`, and the zero value `""` when the walk reaches
`nil` without a match. -/
def parentCacheIDFrom (parent : ChainID) : roLayer → String
  | { parent := none, .. } => ""
  | { parent := some pl, .. } =>
    if pl.chainID = parent then pl.cacheID else parentCacheIDFrom parent pl

/-- The message of the error that `TarStreamFrom` makes with `fmt.Errorf`. -/
def notParentMessage (parent : ChainID) : String :=
  "layer ID '" ++ parent ++
    "' is not a parent of the specified layer: cannot provide diff to non-parent"

/-- The method `TarStreamFrom`. `Diff` is the method of the storage driver of
the layer store, `γ` the type of the streams it returns. The result is the pair
`(io.ReadCloser, error)` that the method returns, together with the calls of
`Diff` it has made, as pairs `(id, parent)`. -/
def TarStreamFrom {γ : Type} (Diff : String → String → Option γ × Option GoError)
    (rl : roLayer) (parent : ChainID) :
    (Option γ × Option GoError) × List (String × String) :=
  let parentCacheID := rl.parentCacheIDFrom parent
  if parent ≠ "" ∧ parentCacheID = "" then
    ((none, some (GoError.errorf (notParentMessage parent))), [])
  else
    (Diff rl.cacheID parentCacheID, [(rl.cacheID, parentCacheID)])

/-- The nearest ancestor whose `chainID` is `c`, if there is one. -/
def nearestAncestor (rl : roLayer) (c : ChainID) : Option roLayer :=
  rl.ancestors.find? fun a => decide (a.chainID = c)

end roLayer

/-- A storage driver whose `Diff` succeeds with a stream that records the two
locators it was asked about. -/
def recordingDiff (id parent : String) : Option (String × String) × Option GoError :=
  (some (id, parent), none)

/-! ## The verified reader -/

/-- The bytes of a stream. -/
abbrev Byte := UInt8

/-- An `io.ReadCloser` given by what it does next: `pending` lists the
answers of the coming `Read` calls, each the bytes stored at the start of the
buffer of the caller (their number is the count returned) with the error
returned; when the list is used up `Read` answers `(0, io.EOF)`. `closeResult`
is the answer of `Close`. -/
structure ReadCloser where
  pending : List (List Byte × Option GoError)
  closeResult : Option GoError
deriving DecidableEq, Repr

/-- One `Read` of an `io.ReadCloser`: the answer and the stream afterwards. -/
def ReadCloser.Read (rc : ReadCloser) : (List Byte × Option GoError) × ReadCloser :=
  match rc.pending with
  | [] => (([], some GoError.EOF), rc)
  | r :: rest => (r, { rc with pending := rest })

/-- The method `Close` of an `io.ReadCloser`. -/
def ReadCloser.Close (rc : ReadCloser) : Option GoError :=
  rc.closeResult

/-- The interface `digest.Verifier` over a state `σ`: `Write` returns a count
and an error, `Verified` tells whether what was written has the digest. -/
structure Verifier (σ : Type) where
  Write : σ → List Byte → (Int × Option GoError) × σ
  Verified : σ → Bool

/-- The state of the verifier that `Digest.Verifier()` returns: the digest to
meet and the bytes written to the running hash so far. -/
structure hashVerifierState where
  digest : String
  written : List Byte
deriving DecidableEq, Repr

/-- Modelled from the spec: the verifier returned by `Digest.Verifier()` of the
digest package, which is not among the sources. It keeps a running hash of the
bytes written to it; writing to a hash never fails and takes all the bytes;
`Verified` compares the digest of what was written, computed by `hash`, with
the target digest. The target is taken to be a well-formed digest of an
algorithm the package knows, as the `diffID` of a registered layer is. -/
def hashVerifier (hash : List Byte → String) : Verifier hashVerifierState where
  Write := fun v p => (((p.length : Int), none), { v with written := v.written ++ p })
  Verified := fun v => decide (hash v.written = v.digest)

/-- The struct `verifiedReadCloser`; the field `verifier` is an interface
value, kept as its method table and its state. -/
structure verifiedReadCloser (σ : Type) where
  rc : ReadCloser
  dgst : String
  methods : Verifier σ
  verifier : σ

/-- The function `newVerifiedReadCloser`, for the verifier of the digest with
the hash function `hash`. -/
def newVerifiedReadCloser (hash : List Byte → String) (rc : ReadCloser) (dgst : String) :
    verifiedReadCloser hashVerifierState × Option GoError :=
  ({ rc := rc, dgst := dgst, methods := hashVerifier hash,
     verifier := { digest := dgst, written := [] } }, none)

/-- The message of the error that `Read` makes when the digest is not met. -/
def verifyMessage (dgst : String) : String :=
  "could not verify layer data for: " ++ dgst ++
    ". This may be because internal files in the layer store were modified. " ++
    "Re-pulling or rebuilding this image may resolve the issue"

/-- What a `Read` of the verified reader gives the caller: the bytes that the
stream underneath stored in the buffer, the count `n` and the error. -/
structure ReadOutcome where
  p : List Byte
  n : Int
  err : Option GoError
deriving DecidableEq, Repr

/-- The bytes of the buffer that the returned count covers, `p[:n]`. -/
def ReadOutcome.delivered (o : ReadOutcome) : List Byte :=
  o.p.take o.n.toNat

/-- The method `Read` of the verified reader. The stream underneath is read;
the bytes it stored, if any, are written to the verifier, and a failing write
returns the count and error of that write; at `io.EOF` the error is replaced by
the verification error unless the verifier reports the digest as met. -/
def verifiedReadCloser.Read {σ : Type} (vrc : verifiedReadCloser σ) :
    ReadOutcome × verifiedReadCloser σ :=
  match vrc.rc.Read with
  | ((p, err), rc1) =>
    let n : Int := p.length
    let written := if n > 0 then vrc.methods.Write vrc.verifier p else ((n, none), vrc.verifier)
    match written with
    | ((wn, some werr), v1) => ({ p := p, n := wn, err := some werr },
        { vrc with rc := rc1, verifier := v1 })
    | ((_, none), v1) =>
      let err1 :=
        if err = some GoError.EOF then
          if !vrc.methods.Verified v1 then some (GoError.errorf (verifyMessage vrc.dgst))
          else err
        else err
      ({ p := p, n := n, err := err1 }, { vrc with rc := rc1, verifier := v1 })

/-- The method `Close` of the verified reader. -/
def verifiedReadCloser.Close {σ : Type} (vrc : verifiedReadCloser σ) : Option GoError :=
  vrc.rc.closeResult

/-- A caller that reads until a `Read` returns an error: the bytes received
over all the reads, the error of the last one and the reader afterwards.
`fuel` bounds the number of reads; `none` means it was used up. -/
def readUntilError {σ : Type} : Nat → verifiedReadCloser σ →
    Option (List Byte × GoError × verifiedReadCloser σ)
  | 0, _ => none
  | fuel + 1, vrc =>
    match vrc.Read with
    | (o, vrc1) =>
      match o.err with
      | some e => some (o.delivered, e, vrc1)
      | none =>
        match readUntilError fuel vrc1 with
        | none => none
        | some (bs, e, vrc2) => some (o.delivered ++ bs, e, vrc2)

/-- The method `TarStream`. `getTarStream` is the method of the layer store
that opens the stream of the content of the layer, `hash` the hash function of
the digest; the result is the pair `(io.ReadCloser, error)`. -/
def roLayer.TarStream (getTarStream : roLayer → ReadCloser × Option GoError)
    (hash : List Byte → String) (rl : roLayer) :
    Option (verifiedReadCloser hashVerifierState) × Option GoError :=
  match getTarStream rl with
  | (_, some err) => (none, some err)
  | (rc, none) =>
    match newVerifiedReadCloser hash rc rl.diffID with
    | (_, some err) => (none, some err)
    | (vrc, none) => (some vrc, none)

/-- The streams that deliver the bytes `B`, in any number of pieces of any
length, and then end: each read before the last returns a piece with a `nil`
error, and the end is either `io.EOF` returned with the last piece (which may
be empty) or the list of answers being used up. -/
inductive Delivers : List (List Byte × Option GoError) → List Byte → Prop where
  | exhausted : Delivers [] []
  | eof (last : List Byte) (rest : List (List Byte × Option GoError)) :
      Delivers ((last, some GoError.EOF) :: rest) last
  | piece (c : List Byte) (pending : List (List Byte × Option GoError)) (B : List Byte) :
      Delivers pending B → Delivers ((c, none) :: pending) (c ++ B)

/-- A toy digest for the samples: it tells three byte strings apart. -/
def toyHash (bs : List Byte) : String :=
  if bs = [1, 2, 3] then "sha256:b0" else if bs = [] then "sha256:e0" else "sha256:ff"

/-! ## Identity and parent of a node -/

namespace roLayer

/-- The method `ChainID`. -/
def ChainID (rl : roLayer) : Layer17.ChainID :=
  rl.chainID

/-- The method `DiffID`. -/
def DiffID (rl : roLayer) : Layer17.DiffID :=
  rl.diffID

end roLayer

/-- An interface value of type `Layer` with what it points to: the `nil`
interface, or the dynamic type `*roLayer` with its pointer, which is itself
`nil` (`none`) or points to a node. -/
inductive LayerView where
  | nilInterface
  | roLayerPtr (ptr : Option roLayer)

namespace LayerView

/-- Whether the interface value compares equal to `nil`: only the `nil`
interface does, an interface holding a `nil` pointer does not. -/
def isNil : LayerView → Bool
  | nilInterface => true
  | roLayerPtr _ => false

/-- The node whose methods a call through the interface value runs; `none`
when the call dereferences `nil` and panics. -/
def node : LayerView → Option roLayer
  | nilInterface => none
  | roLayerPtr ptr => ptr

/-- A call of `ChainID` through the interface value. -/
def ChainID (v : LayerView) : Option Layer17.ChainID :=
  v.node.map roLayer.ChainID

/-- A call of `DiffID` through the interface value. -/
def DiffID (v : LayerView) : Option Layer17.DiffID :=
  v.node.map roLayer.DiffID

/-- A call of `Size` through the interface value. -/
def Size (v : LayerView) : Option (Int × Option GoError) :=
  v.node.map roLayer.Size

/-- A call of `depth` on the `*roLayer` held by the interface value. -/
def depth (v : LayerView) : Option Int :=
  v.node.map roLayer.depth

end LayerView

/-- The method `Parent`: the `nil` interface for a node without parent, and
the parent pointer converted to the interface otherwise. -/
def roLayer.Parent (rl : roLayer) : LayerView :=
  match rl.parent with
  | none => LayerView.nilInterface
  | some p => LayerView.roLayerPtr (some p)

/-! ## The operations of a node as steps on its state -/

/-- The operations of a node. -/
inductive NodeOp where
  | getReference
  | deleteReference (ref : Layer)
  | hasReference (ref : Layer)
  | hasReferences
  | ChainID
  | DiffID
  | Parent
  | Size
  | DiffSize
  | depth
deriving DecidableEq

/-- What an operation of a node returns. -/
inductive NodeResult where
  | handle (ref : Layer)
  | done
  | bool (b : Bool)
  | id (s : String)
  | view (v : LayerView)
  | sized (r : Int × Option GoError)
  | int (n : Int)

/-- One operation on a node: what it returns, and the node and the heap after
it; `none` when the operation panics. Only `getReference` and `deleteReference`
assign to a field of the node, the other methods read it. -/
def NodeOp.run : NodeOp → roLayer → Heap → Option (NodeResult × roLayer × Heap)
  | NodeOp.getReference, rl, hp =>
    match rl.getReference hp with
    | none => none
    | some (ref, rl1, hp1) => some (NodeResult.handle ref, rl1, hp1)
  | NodeOp.deleteReference ref, rl, hp => some (NodeResult.done, rl.deleteReference ref, hp)
  | NodeOp.hasReference ref, rl, hp => some (NodeResult.bool (rl.hasReference ref), rl, hp)
  | NodeOp.hasReferences, rl, hp => some (NodeResult.bool rl.hasReferences, rl, hp)
  | NodeOp.ChainID, rl, hp => some (NodeResult.id rl.ChainID, rl, hp)
  | NodeOp.DiffID, rl, hp => some (NodeResult.id rl.DiffID, rl, hp)
  | NodeOp.Parent, rl, hp => some (NodeResult.view rl.Parent, rl, hp)
  | NodeOp.Size, rl, hp => some (NodeResult.sized rl.Size, rl, hp)
  | NodeOp.DiffSize, rl, hp => some (NodeResult.sized rl.DiffSize, rl, hp)
  | NodeOp.depth, rl, hp => some (NodeResult.int rl.depth, rl, hp)

/-! ## Storing a node in a metadata transaction -/

/-- The setters of the interface `MetadataTransaction` over a state `τ`: each
takes the transaction and a value and returns an error and the transaction
afterwards. -/
structure MetadataTransaction (τ : Type) where
  SetSize : τ → Int → Option GoError × τ
  SetParent : τ → ChainID → Option GoError × τ
  SetDiffID : τ → DiffID → Option GoError × τ
  SetCacheID : τ → String → Option GoError × τ
  SetDescriptor : τ → Descriptor → Option GoError × τ

/-- A call of a setter with its argument. -/
inductive TxCall where
  | SetDiffID (v : DiffID)
  | SetSize (v : Int)
  | SetCacheID (v : String)
  | SetDescriptor (v : Descriptor)
  | SetParent (v : ChainID)
deriving DecidableEq, Repr

/-- The call of a setter on a transaction. -/
def MetadataTransaction.call {τ : Type} (tx : MetadataTransaction τ) (t : τ) :
    TxCall → Option GoError × τ
  | TxCall.SetDiffID v => tx.SetDiffID t v
  | TxCall.SetSize v => tx.SetSize t v
  | TxCall.SetCacheID v => tx.SetCacheID t v
  | TxCall.SetDescriptor v => tx.SetDescriptor t v
  | TxCall.SetParent v => tx.SetParent t v

/-- The same transaction with a journal: every call of a setter is passed on,
and the call with the error it returned is added at the end of the journal. -/
def MetadataTransaction.logged {τ : Type} (tx : MetadataTransaction τ) :
    MetadataTransaction (τ × List (TxCall × Option GoError)) where
  SetSize := fun s v =>
    ((tx.SetSize s.1 v).1, ((tx.SetSize s.1 v).2, s.2 ++ [(TxCall.SetSize v, (tx.SetSize s.1 v).1)]))
  SetParent := fun s v =>
    ((tx.SetParent s.1 v).1,
      ((tx.SetParent s.1 v).2, s.2 ++ [(TxCall.SetParent v, (tx.SetParent s.1 v).1)]))
  SetDiffID := fun s v =>
    ((tx.SetDiffID s.1 v).1,
      ((tx.SetDiffID s.1 v).2, s.2 ++ [(TxCall.SetDiffID v, (tx.SetDiffID s.1 v).1)]))
  SetCacheID := fun s v =>
    ((tx.SetCacheID s.1 v).1,
      ((tx.SetCacheID s.1 v).2, s.2 ++ [(TxCall.SetCacheID v, (tx.SetCacheID s.1 v).1)]))
  SetDescriptor := fun s v =>
    ((tx.SetDescriptor s.1 v).1,
      ((tx.SetDescriptor s.1 v).2,
        s.2 ++ [(TxCall.SetDescriptor v, (tx.SetDescriptor s.1 v).1)]))

/-- The function `storeLayer`: the setters are called in the order of the
source, each error is returned at once, the descriptor is stored only when its
digest is not empty and the parent only when there is one. The result is the
error, the transaction afterwards and the node afterwards, to which the
function never assigns. -/
def storeLayer {τ : Type} (tx : MetadataTransaction τ) (t : τ) (layer : roLayer) :
    Option GoError × τ × roLayer :=
  match tx.SetDiffID t layer.diffID with
  | (some err, t1) => (some err, t1, layer)
  | (none, t1) =>
    match tx.SetSize t1 layer.size with
    | (some err, t2) => (some err, t2, layer)
    | (none, t2) =>
      match tx.SetCacheID t2 layer.cacheID with
      | (some err, t3) => (some err, t3, layer)
      | (none, t3) =>
        match (if layer.descriptor.Digest ≠ "" then tx.SetDescriptor t3 layer.descriptor
          else (none, t3)) with
        | (some err, t4) => (some err, t4, layer)
        | (none, t4) =>
          match layer.parent with
          | none => (none, t4, layer)
          | some p =>
            match tx.SetParent t4 p.chainID with
            | (some err, t5) => (some err, t5, layer)
            | (none, t5) => (none, t5, layer)

/-- The setter calls that `storeLayer` is to make for a node when none fails,
in order. -/
def plannedCalls (layer : roLayer) : List TxCall :=
  [TxCall.SetDiffID layer.diffID, TxCall.SetSize layer.size, TxCall.SetCacheID layer.cacheID] ++
    (if layer.descriptor.Digest ≠ "" then [TxCall.SetDescriptor layer.descriptor] else []) ++
    (match layer.parent with
      | none => []
      | some p => [TxCall.SetParent p.chainID])

/-- Running a list of setter calls in order up to the first that fails: the
error returned, the transaction afterwards and the calls made, each with its
error. -/
def runCalls {τ : Type} (tx : MetadataTransaction τ) :
    List TxCall → τ → Option GoError × τ × List (TxCall × Option GoError)
  | [], t => (none, t, [])
  | c :: cs, t =>
    match tx.call t c with
    | (some err, t1) => (some err, t1, [(c, some err)])
    | (none, t1) =>
      match runCalls tx cs t1 with
      | (r, t2, log) => (r, t2, (c, none) :: log)

/-! ## Sequences of reads and the bytes given to the verifier -/

/-- The pieces of a list of byte strings put one after the other. -/
def concatAll : List (List Byte) → List Byte
  | [] => []
  | x :: xs => x ++ concatAll xs

/-- A call of `Write` on a verifier: the bytes passed, and the count and the
error returned. -/
structure WriteCall where
  p : List Byte
  n : Int
  err : Option GoError
deriving DecidableEq, Repr

/-- The same verifier with a journal: every `Write` is passed on and added,
with what it returned, at the end of the journal; `Verified` is passed on. -/
def Verifier.recording {σ : Type} (m : Verifier σ) : Verifier (σ × List WriteCall) where
  Write := fun s p =>
    ((m.Write s.1 p).1,
      ((m.Write s.1 p).2, s.2 ++ [{ p := p, n := (m.Write s.1 p).1.1, err := (m.Write s.1 p).1.2 }]))
  Verified := fun s => m.Verified s.1

/-- The answers of `k` calls of `Read` on an `io.ReadCloser`, first call first,
and the stream afterwards. -/
def ReadCloser.readN : Nat → ReadCloser → List (List Byte × Option GoError) × ReadCloser
  | 0, rc => ([], rc)
  | k + 1, rc =>
    match rc.Read with
    | (r, rc1) =>
      match ReadCloser.readN k rc1 with
      | (rs, rc2) => (r :: rs, rc2)

/-- The outcomes of `k` calls of `Read` on a verified reader, first call
first, whatever errors they return, and the reader afterwards. -/
def verifiedReadCloser.readN {σ : Type} : Nat → verifiedReadCloser σ →
    List ReadOutcome × verifiedReadCloser σ
  | 0, vrc => ([], vrc)
  | k + 1, vrc =>
    match vrc.Read with
    | (o, vrc1) =>
      match verifiedReadCloser.readN k vrc1 with
      | (os, vrc2) => (o :: os, vrc2)

/-! ## Chain identifiers as the store computes them -/

/-- Modelled from the spec: the operation `ComputeChainID` of the identity
module, which is not among the sources. It hashes the two identifiers joined
as `"<parentChainID> <diffID>"`, and returns `diffID` unchanged when
`parentChainID` is empty. `hash` is the hash function of the digest. -/
def ComputeChainID (hash : String → String) (parentChainID : ChainID) (diffID : DiffID) :
    ChainID :=
  if parentChainID = "" then diffID else hash (parentChainID ++ " " ++ diffID)

/-- Modelled from the spec: the nodes of the owning store, which is not among
the sources. The store computes the `chainID` of a node when it makes the
node, with `ComputeChainID`, from the `chainID` of the parent node (empty for a
base layer) and the `diffID` of the node, and the parent is a node of the store
as well. -/
def roLayer.fromStore (hash : String → String) : roLayer → Bool
  | { parent := none, chainID := c, diffID := d, .. } =>
    decide (c = ComputeChainID hash "" d)
  | { parent := some p, chainID := c, diffID := d, .. } =>
    decide (c = ComputeChainID hash p.chainID d) && roLayer.fromStore hash p

/-- A toy hash for the samples: it puts the name of the algorithm in front. -/
def toyChainHash (s : String) : String :=
  "sha256:" ++ s

/-! ## Sample layers -/

/-- An empty descriptor. -/
def noDescriptor : Descriptor := ⟨"", 0, ""⟩

/-- A base layer. -/
def baseLayer : roLayer :=
  { chainID := "sha256:aa", diffID := "sha256:aa", parent := none, cacheID := "cache-a",
    size := 5, descriptor := noDescriptor, referenceCount := 0, references := some ∅ }

/-- A layer on top of `baseLayer`. -/
def midLayer : roLayer :=
  { chainID := "sha256:bb", diffID := "sha256:b0", parent := some baseLayer,
    cacheID := "cache-b", size := 7, descriptor := noDescriptor, referenceCount := 0,
    references := some ∅ }

/-- A layer on top of `midLayer`. -/
def topLayer : roLayer :=
  { chainID := "sha256:cc", diffID := "sha256:c0", parent := some midLayer,
    cacheID := "cache-c", size := 11, descriptor := noDescriptor, referenceCount := 0,
    references := some ∅ }

/-- A base layer as large as an `int64` allows. -/
def hugeBase : roLayer :=
  { baseLayer with size := 2 ^ 63 - 1 }

/-- A one-byte layer on top of `hugeBase`. -/
def overHuge : roLayer :=
  { midLayer with parent := some hugeBase, size := 1 }

/-- A base layer whose chain identifier is the empty string. -/
def blankChainBase : roLayer :=
  { baseLayer with chainID := "" }

/-- A stream that delivers the bytes 1, 2, 3 in two pieces and then ends. -/
def goodStream : ReadCloser :=
  { pending := [([1], none), ([2, 3], none), ([], some GoError.EOF)], closeResult := none }

/-- A stream that delivers the bytes 1, 2, 4, the last two with `io.EOF`. -/
def badStream : ReadCloser :=
  { pending := [([1], none), ([2, 4], some GoError.EOF)], closeResult := none }

/-- A stream whose first read stores two bytes and fails with an error that is
not `io.EOF`. -/
def brokenStream : ReadCloser :=
  { pending := [([1, 2], some (GoError.other 7)), ([3], none)],
    closeResult := some (GoError.other 5) }

/-- A stream whose first read goes well and whose second read stores two bytes
and fails with an error that is not `io.EOF`. -/
def lateBrokenStream : ReadCloser :=
  { pending := [([9], none), ([1, 2], some (GoError.other 7)), ([3], none)],
    closeResult := none }

/-- A base layer as the store makes it. -/
def storeBase : roLayer :=
  { baseLayer with chainID := ComputeChainID toyChainHash "" "sha256:aa" }

/-- A layer as the store makes it on top of `storeBase`. -/
def storeChild : roLayer :=
  { midLayer with chainID := ComputeChainID toyChainHash storeBase.chainID "sha256:b0",
                  parent := some storeBase }

/-- A layer with a descriptor on top of `baseLayer`. -/
def describedLayer : roLayer :=
  { midLayer with descriptor := ⟨"application/tar", 7, "sha256:dd"⟩ }

/-- A transaction that keeps nothing and whose setters all succeed. -/
def okTx : MetadataTransaction Unit where
  SetSize := fun t _ => (none, t)
  SetParent := fun t _ => (none, t)
  SetDiffID := fun t _ => (none, t)
  SetCacheID := fun t _ => (none, t)
  SetDescriptor := fun t _ => (none, t)

/-- A transaction whose `SetCacheID` fails. -/
def cacheFailTx : MetadataTransaction Unit where
  SetSize := fun t _ => (none, t)
  SetParent := fun t _ => (none, t)
  SetDiffID := fun t _ => (none, t)
  SetCacheID := fun t _ => (some (GoError.other 3), t)
  SetDescriptor := fun t _ => (none, t)

/-- A node whose `references` map was never made. -/
def nilMapLayer : roLayer :=
  { baseLayer with references := none }

/-! ## Arithmetic of `int64` -/

theorem wrapInt64_of_inInt64 {x : Int} (h : inInt64 x) : wrapInt64 x = x := by
  unfold inInt64 at h
  unfold wrapInt64
  omega

theorem wrapInt64_add_left (a b : Int) : wrapInt64 (wrapInt64 a + b) = wrapInt64 (a + b) := by
  unfold wrapInt64
  omega

theorem inInt64_wrapInt64 (x : Int) : inInt64 (wrapInt64 x) := by
  unfold inInt64 wrapInt64
  omega

/-! ## Size and depth -/

theorem roLayer.sumDiffSize_base (c d : String) (k : String) (s : Int) (ds : Descriptor)
    (n : Int) (r : Option (Finset Layer)) :
    roLayer.sumDiffSize ⟨c, d, none, k, s, ds, n, r⟩ = s := by
  simp [roLayer.sumDiffSize, roLayer.chain, roLayer.ancestors, roLayer.DiffSize]

theorem roLayer.sumDiffSize_child (c d : String) (p : roLayer) (k : String) (s : Int)
    (ds : Descriptor) (n : Int) (r : Option (Finset Layer)) :
    roLayer.sumDiffSize ⟨c, d, some p, k, s, ds, n, r⟩ = p.sumDiffSize + s := by
  simp [roLayer.sumDiffSize, roLayer.chain, roLayer.ancestors, roLayer.DiffSize]
  omega

/-- The result of `Size` on any layer: no error, and the exact sum of the chain
reduced to `int64`. -/
theorem roLayer.Size_eq_wrap : ∀ rl : roLayer, rl.Size = (wrapInt64 rl.sumDiffSize, none)
  | ⟨c, d, none, k, s, ds, n, r⟩ => by
    rw [roLayer.sumDiffSize_base]
    simp [roLayer.Size]
  | ⟨c, d, some p, k, s, ds, n, r⟩ => by
    rw [roLayer.sumDiffSize_child]
    have ih := roLayer.Size_eq_wrap p
    simp only [roLayer.Size, ih]
    rw [wrapInt64_add_left]

theorem roLayer.depth_eq_length : ∀ rl : roLayer, rl.depth = (rl.chain.length : Int)
  | ⟨c, d, none, k, s, ds, n, r⟩ => by
    simp [roLayer.depth, roLayer.chain, roLayer.ancestors]
  | ⟨c, d, some p, k, s, ds, n, r⟩ => by
    have ih := roLayer.depth_eq_length p
    simp only [roLayer.chain, List.length_cons] at ih
    simp only [roLayer.depth, roLayer.chain, roLayer.ancestors, List.length_cons, ih]
    omega

/-- C1, as stated, fails: for the one-byte layer on top of a base layer of
`2^63 - 1` bytes (both sizes are `int64` values) `Size` returns no error and
`-2^63`, while the sum of `DiffSize` over the chain is `2^63`. -/
theorem C1_Size_sum_counterexample :
    inInt64 hugeBase.size ∧ inInt64 overHuge.size ∧
      overHuge.chain.map (fun l => (roLayer.DiffSize l).1) = [1, 2 ^ 63 - 1] ∧
      overHuge.Size = (-(2 ^ 63), none) ∧
      ¬ (overHuge.Size.2 = none ∧ overHuge.Size.1 = overHuge.sumDiffSize) := by
  decide

/-- C1, amended: for every layer (its parent chain is finite, of any length at
least one) `Size` returns a `nil` error, and the size it returns is the sum of
`DiffSize` over the layer and all its ancestors reduced to `int64` by
two's-complement wrap-around; it is that sum itself whenever the sum is an
`int64` value. -/
theorem C1_Size_is_wrapped_sum (rl : roLayer) :
    rl.Size.2 = none ∧ (∀ l ∈ rl.chain, (roLayer.DiffSize l).2 = none) ∧
      1 ≤ rl.chain.length ∧
      rl.Size.1 = wrapInt64 (rl.chain.map fun l => (roLayer.DiffSize l).1).sum ∧
      (inInt64 (rl.chain.map fun l => (roLayer.DiffSize l).1).sum →
        rl.Size.1 = (rl.chain.map fun l => (roLayer.DiffSize l).1).sum) := by
  have h := roLayer.Size_eq_wrap rl
  refine ⟨by rw [h], fun l _ => rfl, by simp [roLayer.chain], by rw [h]; rfl, fun hr => ?_⟩
  rw [h]
  exact wrapInt64_of_inInt64 hr

/-- C1 at a chain of three layers of 11, 7 and 5 bytes: the sum fits, and
`Size` is 23. -/
theorem C1_Size_is_wrapped_sum_witness :
    inInt64 (topLayer.chain.map fun l => (roLayer.DiffSize l).1).sum ∧
      topLayer.Size.1 = (topLayer.chain.map fun l => (roLayer.DiffSize l).1).sum ∧
      topLayer.Size = (23, none) :=
  ⟨by decide, (C1_Size_is_wrapped_sum topLayer).2.2.2.2 (by decide), by decide⟩

/-- C10: `depth` is 1 for a layer without parent and the parent's depth plus
one otherwise; it is the number of nodes on the chain from the layer to its
base layer, both included, and at least 1. -/
theorem C10_depth_counts_chain (rl : roLayer) :
    (rl.parent = none → rl.depth = 1) ∧
      (∀ p, rl.parent = some p → rl.depth = p.depth + 1) ∧
      rl.depth = (rl.chain.length : Int) ∧ 1 ≤ rl.depth := by
  refine ⟨?_, ?_, roLayer.depth_eq_length rl, ?_⟩
  · intro h
    obtain ⟨c, d, p, k, s, ds, n, r⟩ := rl
    subst h
    simp [roLayer.depth]
  · intro p h
    obtain ⟨c, d, q, k, s, ds, n, r⟩ := rl
    subst h
    simp [roLayer.depth]
  · rw [roLayer.depth_eq_length]
    simp [roLayer.chain]

/-- C10 at a base layer and at the layer two steps above it. -/
theorem C10_depth_counts_chain_witness :
    baseLayer.parent = none ∧ baseLayer.depth = 1 ∧
      topLayer.parent = some midLayer ∧ topLayer.depth = midLayer.depth + 1 ∧
      topLayer.depth = 3 :=
  ⟨rfl, (C10_depth_counts_chain baseLayer).1 rfl, rfl,
    (C10_depth_counts_chain topLayer).2.1 midLayer rfl, by decide⟩

/-! ## The reference protocol -/

theorem roLayer.getReference_some (rl : roLayer) (hp : Heap) (refs : Finset Layer)
    (h : rl.references = some refs) :
    rl.getReference hp = some (Layer.cacheRef hp.next,
      { rl with references := some (insert (Layer.cacheRef hp.next) refs) },
      { next := hp.next + 1 }) := by
  simp [roLayer.getReference, h]

theorem roLayer.deleteReference_some (rl : roLayer) (ref : Layer) (refs : Finset Layer)
    (h : rl.references = some refs) :
    rl.deleteReference ref = { rl with references := some (refs.erase ref) } := by
  simp [roLayer.deleteReference, h]

theorem roLayer.deleteReference_none (rl : roLayer) (ref : Layer)
    (h : rl.references = none) : rl.deleteReference ref = rl := by
  simp [roLayer.deleteReference, h]

theorem Heap.fresh_of_covers {hp : Heap} {rl : roLayer} {refs : Finset Layer}
    (hc : hp.covers rl) (h : rl.references = some refs) : Layer.cacheRef hp.next ∉ refs :=
  fun hm => Nat.lt_irrefl _ (hc refs h _ hm)

theorem Heap.covers_getReference {hp hp1 : Heap} {rl rl1 : roLayer} {x : Layer}
    (hc : hp.covers rl) (hg : rl.getReference hp = some (x, rl1, hp1)) : hp1.covers rl1 := by
  cases hr : rl.references with
  | none => simp [roLayer.getReference, hr] at hg
  | some refs =>
    rw [roLayer.getReference_some rl hp refs hr] at hg
    simp only [Option.some.injEq, Prod.mk.injEq] at hg
    obtain ⟨-, rfl, rfl⟩ := hg
    intro refs1 h1 a ha
    simp only [Option.some.injEq] at h1
    subst h1
    rcases Finset.mem_insert.mp ha with he | hm
    · injection he with he
      show a < hp.next + 1
      omega
    · show a < hp.next + 1
      exact Nat.lt_succ_of_lt (hc refs hr a hm)

theorem Heap.covers_deleteReference {hp : Heap} {rl : roLayer} (ref : Layer)
    (hc : hp.covers rl) : hp.covers (rl.deleteReference ref) := by
  cases hr : rl.references with
  | none => rw [roLayer.deleteReference_none rl ref hr]; exact hc
  | some refs =>
    rw [roLayer.deleteReference_some rl ref refs hr]
    intro refs1 h1 a ha
    simp only [Option.some.injEq] at h1
    subst h1
    exact hc refs hr a (Finset.mem_of_mem_erase ha)

/-- What `n` calls of `getReference` do to a node whose map is made: they
succeed, return `n` pairwise different handles that were not in the map, and
leave the map with exactly the old keys and the new handles. -/
theorem roLayer.acquireN_spec : ∀ (n : Nat) (rl : roLayer) (hp : Heap) (refs : Finset Layer),
    rl.references = some refs → hp.covers rl →
    ∃ hs rl1 hp1, rl.acquireN n hp = some (hs, rl1, hp1) ∧ hs.length = n ∧ hs.Nodup ∧
      (∀ x ∈ hs, x ∉ refs) ∧ rl1.references = some (refs ∪ hs.toFinset) ∧
      rl1.referenceCount = rl.referenceCount ∧ hp1.covers rl1
  | 0, rl, hp, refs, hr, hc =>
    ⟨[], rl, hp, rfl, rfl, List.nodup_nil, by simp, by simp [hr], rfl, hc⟩
  | n + 1, rl, hp, refs, hr, hc => by
    have hg := roLayer.getReference_some rl hp refs hr
    have hc1 := Heap.covers_getReference hc hg
    have hfresh := Heap.fresh_of_covers hc hr
    obtain ⟨hs, rl2, hp2, ha, hlen, hnd, hnew, hrefs, hcnt, hc2⟩ :=
      roLayer.acquireN_spec n _ _ (insert (Layer.cacheRef hp.next) refs) rfl hc1
    refine ⟨Layer.cacheRef hp.next :: hs, rl2, hp2, ?_, by simp [hlen], ?_, ?_, ?_, hcnt, hc2⟩
    · simp only [roLayer.acquireN, hg, ha]
    · refine List.nodup_cons.mpr ⟨fun hm => ?_, hnd⟩
      exact hnew _ hm (Finset.mem_insert_self _ _)
    · intro x hx
      rcases List.mem_cons.mp hx with rfl | hx
      · exact hfresh
      · exact fun hm => hnew x hx (Finset.mem_insert_of_mem hm)
    · rw [hrefs]
      congr 1
      ext y
      simp only [Finset.mem_union, Finset.mem_insert, List.mem_toFinset, List.toFinset_cons]
      tauto

theorem roLayer.releaseAll_none : ∀ (ds : List Layer) (rl : roLayer),
    rl.references = none → roLayer.releaseAll ds rl = rl
  | [], _, _ => rfl
  | d :: ds, rl, hr => by
    have h := roLayer.releaseAll_none ds rl hr
    simp only [roLayer.releaseAll, List.foldl_cons] at h ⊢
    rw [roLayer.deleteReference_none rl d hr]
    exact h

/-- A sequence of `deleteReference` calls removes exactly the keys it names. -/
theorem roLayer.releaseAll_some : ∀ (ds : List Layer) (rl : roLayer) (refs : Finset Layer),
    rl.references = some refs →
    (roLayer.releaseAll ds rl).references = some (refs \ ds.toFinset) ∧
      (roLayer.releaseAll ds rl).referenceCount = rl.referenceCount
  | [], rl, refs, hr => by simp [roLayer.releaseAll, hr]
  | d :: ds, rl, refs, hr => by
    have hd := roLayer.deleteReference_some rl d refs hr
    obtain ⟨h1, h2⟩ := roLayer.releaseAll_some ds (rl.deleteReference d) (refs.erase d)
      (by rw [hd])
    simp only [roLayer.releaseAll, List.foldl_cons] at h1 h2 ⊢
    refine ⟨?_, by rw [h2, hd]⟩
    rw [h1]
    congr 1
    ext y
    simp only [Finset.mem_sdiff, Finset.mem_erase, List.mem_toFinset, List.toFinset_cons,
      Finset.mem_insert]
    tauto

theorem roLayer.hasReferences_eq_false_iff (rl : roLayer) (refs : Finset Layer)
    (hr : rl.references = some refs) : rl.hasReferences = false ↔ refs = ∅ := by
  simp [roLayer.hasReferences, roLayer.lenReferences, hr]

theorem Heap.covers_of_empty (hp : Heap) (rl : roLayer) (h0 : rl.references = some ∅) :
    hp.covers rl := by
  intro refs hr a ha
  rw [h0] at hr
  simp only [Option.some.injEq] at hr
  subst hr
  simp at ha

/-- A sequence of `getReference` and `deleteReference` calls on a node whose
map is made runs to its end, keeps the map made and never writes
`referenceCount`. -/
theorem applyOps_spec : ∀ (ops : List RefOp) (rl : roLayer) (hp : Heap) (refs : Finset Layer),
    rl.references = some refs → hp.covers rl →
    ∃ rl1 hp1 refs1, applyOps ops rl hp = some (rl1, hp1) ∧ rl1.references = some refs1 ∧
      rl1.referenceCount = rl.referenceCount ∧ hp1.covers rl1
  | [], rl, hp, refs, hr, hc => ⟨rl, hp, refs, rfl, hr, rfl, hc⟩
  | RefOp.acquire :: ops, rl, hp, refs, hr, hc => by
    have hg := roLayer.getReference_some rl hp refs hr
    obtain ⟨rl1, hp1, refs1, ha, hr1, hcnt, hc1⟩ :=
      applyOps_spec ops _ _ _ rfl (Heap.covers_getReference hc hg)
    exact ⟨rl1, hp1, refs1, by simp only [applyOps, hg, ha], hr1, hcnt, hc1⟩
  | RefOp.release ref :: ops, rl, hp, refs, hr, hc => by
    have hd := roLayer.deleteReference_some rl ref refs hr
    obtain ⟨rl1, hp1, refs1, ha, hr1, hcnt, hc1⟩ :=
      applyOps_spec ops (rl.deleteReference ref) hp (refs.erase ref) (by rw [hd])
        (Heap.covers_deleteReference ref hc)
    exact ⟨rl1, hp1, refs1, by simp only [applyOps, ha], hr1, by rw [hcnt, hd], hc1⟩

/-- C3: on a node that starts with no references (an empty `references` map,
or one never made when `N = 0`), `N` calls of `getReference` return `N`
pairwise different handles, and after any sequence of `deleteReference` calls
(in any order, with repeats, even with handles the node never gave out)
`hasReferences` is false exactly when each of the `N` handles occurs in the
sequence, and true otherwise. -/
theorem C3_hasReferences_until_all_released (rl : roLayer) (hp : Heap) (N : Nat)
    (h0 : rl.hasReferences = false) :
    (rl.references ≠ none ∨ N = 0 → ∃ r, rl.acquireN N hp = some r) ∧
    ∀ hs rl1 hp1, rl.acquireN N hp = some (hs, rl1, hp1) →
      hs.length = N ∧ hs.Nodup ∧
      ∀ ds : List Layer,
        ((roLayer.releaseAll ds rl1).hasReferences = false ↔ ∀ h ∈ hs, h ∈ ds) ∧
        ((roLayer.releaseAll ds rl1).hasReferences = true ↔ ∃ h ∈ hs, h ∉ ds) := by
  have key : ∀ (hs : List Layer) (rl1 : roLayer) (ds : List Layer),
      ((roLayer.releaseAll ds rl1).hasReferences = false ↔ ∀ h ∈ hs, h ∈ ds) →
      ((roLayer.releaseAll ds rl1).hasReferences = true ↔ ∃ h ∈ hs, h ∉ ds) := by
    intro hs rl1 ds hiff
    rw [← Bool.not_eq_false, hiff]
    push_neg
    rfl
  cases hr : rl.references with
  | none =>
    cases N with
    | zero =>
      refine ⟨fun _ => ⟨_, rfl⟩, fun hs rl1 hp1 ha => ?_⟩
      simp only [roLayer.acquireN, Option.some.injEq, Prod.mk.injEq] at ha
      obtain ⟨rfl, rfl, rfl⟩ := ha
      refine ⟨rfl, List.nodup_nil, fun ds => ?_⟩
      have hiff : (roLayer.releaseAll ds rl).hasReferences = false ↔
          ∀ h ∈ ([] : List Layer), h ∈ ds := by
        rw [roLayer.releaseAll_none ds rl hr]
        simp [h0]
      exact ⟨hiff, key _ _ _ hiff⟩
    | succ n =>
      refine ⟨fun h => ?_, fun hs rl1 hp1 ha => ?_⟩
      · rcases h with h | h
        · exact absurd rfl h
        · omega
      · simp [roLayer.acquireN, roLayer.getReference, hr] at ha
  | some refs =>
    have he : refs = ∅ := (roLayer.hasReferences_eq_false_iff rl refs hr).mp h0
    subst he
    obtain ⟨hs, rl1, hp1, ha, hlen, hnd, -, hrefs, -, -⟩ :=
      roLayer.acquireN_spec N rl hp ∅ hr (Heap.covers_of_empty hp rl hr)
    refine ⟨fun _ => ⟨_, ha⟩, fun hs2 rl2 hp2 ha2 => ?_⟩
    rw [ha] at ha2
    simp only [Option.some.injEq, Prod.mk.injEq] at ha2
    obtain ⟨rfl, rfl, rfl⟩ := ha2
    refine ⟨hlen, hnd, fun ds => ?_⟩
    have hrel := (roLayer.releaseAll_some ds rl1 _ hrefs).1
    have hiff : (roLayer.releaseAll ds rl1).hasReferences = false ↔ ∀ h ∈ hs, h ∈ ds := by
      rw [roLayer.hasReferences_eq_false_iff _ _ hrel, Finset.sdiff_eq_empty_iff_subset]
      simp only [Finset.empty_union]
      constructor
      · intro hsub h hh
        exact List.mem_toFinset.mp (hsub (List.mem_toFinset.mpr hh))
      · intro hall x hx
        exact List.mem_toFinset.mpr (hall x (List.mem_toFinset.mp hx))
    exact ⟨hiff, key _ _ _ hiff⟩

/-- C3 on a base layer with two handles: releasing the second handle twice
leaves the node referenced, releasing both (in reverse order) does not. -/
theorem C3_hasReferences_until_all_released_witness :
    baseLayer.hasReferences = false ∧
    (baseLayer.acquireN 2 ⟨0⟩).map (fun r => r.1) = some [Layer.cacheRef 0, Layer.cacheRef 1] ∧
    (baseLayer.acquireN 2 ⟨0⟩).map (fun r =>
      (roLayer.releaseAll [Layer.cacheRef 1, Layer.cacheRef 1] r.2.1).hasReferences) = some true ∧
    (baseLayer.acquireN 2 ⟨0⟩).map (fun r =>
      (roLayer.releaseAll [Layer.cacheRef 1, Layer.cacheRef 0] r.2.1).hasReferences) = some false ∧
    (∃ r, baseLayer.acquireN 2 ⟨0⟩ = some r) ∧
    ∀ hs rl1 hp1, baseLayer.acquireN 2 ⟨0⟩ = some (hs, rl1, hp1) →
      hs.length = 2 ∧ hs.Nodup ∧
      ∀ ds : List Layer,
        ((roLayer.releaseAll ds rl1).hasReferences = false ↔ ∀ h ∈ hs, h ∈ ds) ∧
        ((roLayer.releaseAll ds rl1).hasReferences = true ↔ ∃ h ∈ hs, h ∉ ds) :=
  ⟨by decide, by decide, by decide, by decide,
    (C3_hasReferences_until_all_released baseLayer ⟨0⟩ 2 (by decide)).1
      (Or.inl (by simp [baseLayer])),
    (C3_hasReferences_until_all_released baseLayer ⟨0⟩ 2 (by decide)).2⟩

/-- C4: on a node whose `references` map is made (and whose handles come from
the allocator), `getReference` returns a handle that was not in `references`
before the call, `hasReference` of it is true right after, `references` has
exactly one entry more, and the next call returns a different handle. -/
theorem C4_getReference_fresh_handle (rl : roLayer) (hp : Heap) (refs : Finset Layer)
    (hr : rl.references = some refs) (hc : hp.covers rl) :
    ∃ h rl1 hp1, rl.getReference hp = some (h, rl1, hp1) ∧ h ∉ refs ∧
      rl.hasReference h = false ∧ rl1.hasReference h = true ∧
      rl1.lenReferences = rl.lenReferences + 1 ∧
      ∃ h2 rl2 hp2, rl1.getReference hp1 = some (h2, rl2, hp2) ∧ h2 ≠ h ∧
        rl2.hasReference h = true ∧ rl2.hasReference h2 = true := by
  have hfresh := Heap.fresh_of_covers hc hr
  refine ⟨_, _, _, roLayer.getReference_some rl hp refs hr, hfresh, ?_, ?_, ?_, ?_⟩
  · simp [roLayer.hasReference, hr, hfresh]
  · simp [roLayer.hasReference]
  · simp [roLayer.lenReferences, hr, Finset.card_insert_of_not_mem hfresh]
  · refine ⟨_, _, _, roLayer.getReference_some _ _ _ rfl, ?_, ?_, ?_⟩
    · simp
    · simp [roLayer.hasReference]
    · simp [roLayer.hasReference]

/-- C4 on a node that already holds the handle at address 0, with the
allocator at address 1. -/
theorem C4_getReference_fresh_handle_witness :
    ∃ h rl1 hp1, ({ baseLayer with references := some {Layer.cacheRef 0} } : roLayer).getReference
        ⟨1⟩ = some (h, rl1, hp1) ∧ h ∉ ({Layer.cacheRef 0} : Finset Layer) ∧
      ({ baseLayer with references := some {Layer.cacheRef 0} } : roLayer).hasReference h = false ∧
      rl1.hasReference h = true ∧
      rl1.lenReferences =
        ({ baseLayer with references := some {Layer.cacheRef 0} } : roLayer).lenReferences + 1 ∧
      ∃ h2 rl2 hp2, rl1.getReference hp1 = some (h2, rl2, hp2) ∧ h2 ≠ h ∧
        rl2.hasReference h = true ∧ rl2.hasReference h2 = true :=
  C4_getReference_fresh_handle { baseLayer with references := some {Layer.cacheRef 0} } ⟨1⟩
    {Layer.cacheRef 0} rfl (by
      intro refs hr a ha
      simp only [Option.some.injEq] at hr
      subst hr
      simp only [Finset.mem_singleton, Layer.cacheRef.injEq] at ha
      subst ha
      decide)

/-- C5: `deleteReference` is idempotent, and for a handle that `hasReference`
does not find it leaves the node as it is: the `references` map, and with it
`hasReferences` and `hasReference` of every handle, are unchanged. -/
theorem C5_deleteReference_idempotent (rl : roLayer) (h : Layer) :
    (rl.deleteReference h).deleteReference h = rl.deleteReference h ∧
    (rl.hasReference h = false →
      rl.deleteReference h = rl ∧
      (rl.deleteReference h).references = rl.references ∧
      (rl.deleteReference h).hasReferences = rl.hasReferences ∧
      ∀ x, (rl.deleteReference h).hasReference x = rl.hasReference x) := by
  cases hr : rl.references with
  | none =>
    have hd := roLayer.deleteReference_none rl h hr
    refine ⟨by rw [hd, hd], fun _ => ?_⟩
    rw [hd]
    exact ⟨rfl, hr, rfl, fun _ => rfl⟩
  | some refs =>
    have hd := roLayer.deleteReference_some rl h refs hr
    constructor
    · rw [hd, roLayer.deleteReference_some _ h (refs.erase h) rfl]
      simp
    · intro hn
      have hmem : h ∉ refs := by
        simpa [roLayer.hasReference, hr] using hn
      have heq : rl.deleteReference h = rl := by
        rw [hd, Finset.erase_eq_of_not_mem hmem, ← hr]
        cases rl
        rfl
      rw [heq]
      exact ⟨rfl, hr, rfl, fun _ => rfl⟩

/-- C5 on a node holding the handle at address 0: releasing the unknown handle
at address 7 changes nothing, and releasing the known handle twice is the same
as releasing it once. -/
theorem C5_deleteReference_idempotent_witness :
    ({ baseLayer with references := some {Layer.cacheRef 0} } : roLayer).hasReference
        (Layer.cacheRef 7) = false ∧
      (({ baseLayer with references := some {Layer.cacheRef 0} } : roLayer).deleteReference
        (Layer.cacheRef 7)).references = some {Layer.cacheRef 0} ∧
      ((({ baseLayer with references := some {Layer.cacheRef 0} } : roLayer).deleteReference
        (Layer.cacheRef 0)).deleteReference (Layer.cacheRef 0)).references = some ∅ :=
  ⟨by decide,
    ((C5_deleteReference_idempotent { baseLayer with references := some {Layer.cacheRef 0} }
      (Layer.cacheRef 7)).2 (by decide)).2.1,
    by decide⟩

/-- C6, as stated, fails: on a base layer with `referenceCount = 0` and an
empty `references` map, one `getReference` call leaves `referenceCount` at 0
while `references` holds one entry. -/
theorem C6_referenceCount_counterexample :
    baseLayer.referenceCount = 0 ∧ baseLayer.references = some ∅ ∧
      (applyOps [RefOp.acquire] baseLayer ⟨0⟩).map
        (fun r => (r.1.referenceCount, r.1.lenReferences)) = some (0, 1) ∧
      (baseLayer.getReference ⟨0⟩).map
        (fun r => (r.2.1.referenceCount, r.2.1.lenReferences)) = some (0, 1) := by
  decide

/-- C6, amended: on a node that starts with `referenceCount = 0` and an empty
`references` map, every sequence of `getReference` and `deleteReference` calls
runs to its end and leaves `referenceCount` at 0, since neither call writes
the field; `referenceCount` then equals the number of entries in `references`
exactly when `references` is empty. Each further `getReference` adds one entry
to `references` and each further `deleteReference` removes at most one (the
number of entries does not grow and falls by at most one), both without
touching `referenceCount`. -/
theorem C6_referenceCount_never_written (ops : List RefOp) (rl : roLayer) (hp : Heap)
    (hcnt : rl.referenceCount = 0) (hr : rl.references = some ∅) :
    ∃ rl1 hp1, applyOps ops rl hp = some (rl1, hp1) ∧ rl1.referenceCount = 0 ∧
      (rl1.referenceCount = (rl1.lenReferences : Int) ↔ rl1.hasReferences = false) ∧
      (∃ h rl2 hp2, rl1.getReference hp1 = some (h, rl2, hp2) ∧
        rl2.referenceCount = rl1.referenceCount ∧
        rl2.lenReferences = rl1.lenReferences + 1) ∧
      ∀ ref, (rl1.deleteReference ref).referenceCount = rl1.referenceCount ∧
        (rl1.deleteReference ref).lenReferences ≤ rl1.lenReferences ∧
        rl1.lenReferences ≤ (rl1.deleteReference ref).lenReferences + 1 := by
  obtain ⟨rl1, hp1, refs1, ha, hr1, hc1, hcov⟩ :=
    applyOps_spec ops rl hp ∅ hr (Heap.covers_of_empty hp rl hr)
  have hzero : rl1.referenceCount = 0 := by rw [hc1, hcnt]
  refine ⟨rl1, hp1, ha, hzero, ?_, ?_, fun ref => ?_⟩
  · rw [hzero]
    simp only [roLayer.hasReferences, decide_eq_false_iff_not, not_lt, Nat.le_zero]
    omega
  · have hfresh := Heap.fresh_of_covers hcov hr1
    refine ⟨_, _, _, roLayer.getReference_some rl1 hp1 refs1 hr1, rfl, ?_⟩
    simp [roLayer.lenReferences, hr1, Finset.card_insert_of_not_mem hfresh]
  · rw [roLayer.deleteReference_some rl1 ref refs1 hr1]
    refine ⟨rfl, ?_, ?_⟩
    · simp only [roLayer.lenReferences, hr1]
      exact Finset.card_erase_le
    · simp only [roLayer.lenReferences, hr1]
      have := Finset.pred_card_le_card_erase (s := refs1) (a := ref)
      omega

/-- C6 on a base layer after two `getReference` calls and one release. -/
theorem C6_referenceCount_never_written_witness :
    baseLayer.referenceCount = 0 ∧ baseLayer.references = some ∅ ∧
    ∃ rl1 hp1, applyOps [RefOp.acquire, RefOp.acquire, RefOp.release (Layer.cacheRef 0)]
        baseLayer ⟨0⟩ = some (rl1, hp1) ∧ rl1.referenceCount = 0 ∧
      (rl1.referenceCount = (rl1.lenReferences : Int) ↔ rl1.hasReferences = false) ∧
      (∃ h rl2 hp2, rl1.getReference hp1 = some (h, rl2, hp2) ∧
        rl2.referenceCount = rl1.referenceCount ∧
        rl2.lenReferences = rl1.lenReferences + 1) ∧
      ∀ ref, (rl1.deleteReference ref).referenceCount = rl1.referenceCount ∧
        (rl1.deleteReference ref).lenReferences ≤ rl1.lenReferences ∧
        rl1.lenReferences ≤ (rl1.deleteReference ref).lenReferences + 1 :=
  ⟨rfl, rfl, C6_referenceCount_never_written _ baseLayer ⟨0⟩ rfl rfl⟩

/-! ## The walk of `TarStreamFrom` -/

/-- The loop of `TarStreamFrom` finds the `cacheID` of the nearest ancestor
with the requested `chainID`, and `""` when there is none. -/
theorem roLayer.parentCacheIDFrom_eq : ∀ (c : Layer17.ChainID) (rl : roLayer),
    rl.parentCacheIDFrom c = ((rl.nearestAncestor c).map fun a => a.cacheID).getD ""
  | c, ⟨_, _, none, _, _, _, _, _⟩ => by
    simp [roLayer.parentCacheIDFrom, roLayer.nearestAncestor, roLayer.ancestors]
  | c, ⟨_, _, some p, _, _, _, _, _⟩ => by
    have ih := roLayer.parentCacheIDFrom_eq c p
    simp only [roLayer.nearestAncestor] at ih
    simp only [roLayer.parentCacheIDFrom, roLayer.nearestAncestor, roLayer.ancestors,
      List.find?_cons]
    by_cases h : p.chainID = c
    · simp [h]
    · simp [h, ih]

theorem roLayer.nearestAncestor_none {rl : roLayer} {c : Layer17.ChainID}
    (h : ∀ a ∈ rl.ancestors, a.chainID ≠ c) : rl.nearestAncestor c = none := by
  simp only [roLayer.nearestAncestor, List.find?_eq_none, decide_eq_true_eq]
  exact h

theorem roLayer.nearestAncestor_some {rl : roLayer} {c : Layer17.ChainID}
    (h : ∃ a ∈ rl.ancestors, a.chainID = c) :
    ∃ A, rl.nearestAncestor c = some A ∧ A ∈ rl.ancestors ∧ A.chainID = c := by
  cases hf : rl.nearestAncestor c with
  | none =>
    obtain ⟨a, ha, hc⟩ := h
    simp only [roLayer.nearestAncestor, List.find?_eq_none, decide_eq_true_eq] at hf
    exact absurd hc (hf a ha)
  | some A =>
    refine ⟨A, rfl, ?_, ?_⟩
    · exact List.mem_of_find?_eq_some hf
    · have := List.find?_some hf
      simpa using this

theorem roLayer.notParentMessage_contains (c : Layer17.ChainID) :
    ∃ pre post : String, roLayer.notParentMessage c = pre ++ c ++ post :=
  ⟨"layer ID '",
    "' is not a parent of the specified layer: cannot provide diff to non-parent", rfl⟩

/-- C7: when `c` is not empty and no ancestor of the layer (no node the walk
over the parent links visits) has the chain identifier `c`, `TarStreamFrom`
returns no stream and the error whose message names `c`, and calls `Diff` of
the storage driver not at all. -/
theorem C7_TarStreamFrom_rejects_non_ancestor {γ : Type}
    (Diff : String → String → Option γ × Option GoError) (rl : roLayer) (c : ChainID)
    (hc : c ≠ "") (hno : ∀ a ∈ rl.ancestors, a.chainID ≠ c) :
    rl.TarStreamFrom Diff c = ((none, some (GoError.errorf (roLayer.notParentMessage c))), []) ∧
      (rl.TarStreamFrom Diff c).2 = [] ∧
      ∃ pre post : String, roLayer.notParentMessage c = pre ++ c ++ post := by
  have hp : rl.parentCacheIDFrom c = "" := by
    rw [roLayer.parentCacheIDFrom_eq, roLayer.nearestAncestor_none hno]
    rfl
  have h : rl.TarStreamFrom Diff c =
      ((none, some (GoError.errorf (roLayer.notParentMessage c))), []) := by
    simp [roLayer.TarStreamFrom, hp, hc]
  exact ⟨h, by rw [h], roLayer.notParentMessage_contains c⟩

/-- C7 on a chain of three layers, asked for the chain identifier of the top
layer itself, which no ancestor carries. -/
theorem C7_TarStreamFrom_rejects_non_ancestor_witness :
    roLayer.TarStreamFrom recordingDiff topLayer "sha256:cc" =
      ((none, some (GoError.errorf (roLayer.notParentMessage "sha256:cc"))), []) ∧
    roLayer.notParentMessage "sha256:cc" =
      "layer ID 'sha256:cc' is not a parent of the specified layer: cannot provide diff to non-parent" :=
  ⟨(C7_TarStreamFrom_rejects_non_ancestor recordingDiff topLayer "sha256:cc" (by decide)
    (by decide)).1, by decide⟩

/-- C8: when `c` is not empty and is the chain identifier of some ancestor of
the layer, `TarStreamFrom` does not return the error of a non-parent: it makes
one call of `Diff` and returns exactly the result of
`Diff(L.cacheID, A.cacheID)`, where `A` is the nearest ancestor with the chain
identifier `c`. The storage locators of the nodes are what the struct comment
says they are, 64 random hexadecimal digits, and so not empty (`hk`). -/
theorem C8_TarStreamFrom_diffs_against_ancestor {γ : Type}
    (Diff : String → String → Option γ × Option GoError) (rl : roLayer) (c : ChainID)
    (_hc : c ≠ "") (hex : ∃ a ∈ rl.ancestors, a.chainID = c)
    (hk : ∀ a ∈ rl.ancestors, a.cacheID ≠ "") :
    ∃ A, rl.nearestAncestor c = some A ∧ A ∈ rl.ancestors ∧ A.chainID = c ∧
      rl.TarStreamFrom Diff c = (Diff rl.cacheID A.cacheID, [(rl.cacheID, A.cacheID)]) ∧
      rl.TarStreamFrom Diff c ≠
        ((none, some (GoError.errorf (roLayer.notParentMessage c))), []) := by
  obtain ⟨A, hA, hmem, hAc⟩ := roLayer.nearestAncestor_some hex
  have hp : rl.parentCacheIDFrom c = A.cacheID := by
    rw [roLayer.parentCacheIDFrom_eq, hA]
    rfl
  have hne : A.cacheID ≠ "" := hk A hmem
  have h : rl.TarStreamFrom Diff c = (Diff rl.cacheID A.cacheID, [(rl.cacheID, A.cacheID)]) := by
    simp [roLayer.TarStreamFrom, hp, hne]
  refine ⟨A, hA, hmem, hAc, h, fun hrej => ?_⟩
  rw [h] at hrej
  have h2 := congrArg Prod.snd hrej
  simp at h2

/-- C8 on a chain of three layers, asked for the chain identifier of the base
layer: the diff is taken against the storage locator of the base layer. -/
theorem C8_TarStreamFrom_diffs_against_ancestor_witness :
    roLayer.TarStreamFrom recordingDiff topLayer "sha256:aa" =
        ((some ("cache-c", "cache-a"), none), [("cache-c", "cache-a")]) ∧
      ∃ A, topLayer.nearestAncestor "sha256:aa" = some A ∧ A ∈ topLayer.ancestors ∧
        A.chainID = "sha256:aa" ∧
        roLayer.TarStreamFrom recordingDiff topLayer "sha256:aa" =
          (recordingDiff topLayer.cacheID A.cacheID, [(topLayer.cacheID, A.cacheID)]) ∧
        roLayer.TarStreamFrom recordingDiff topLayer "sha256:aa" ≠
          ((none, some (GoError.errorf (roLayer.notParentMessage "sha256:aa"))), []) :=
  ⟨by decide,
    C8_TarStreamFrom_diffs_against_ancestor recordingDiff topLayer "sha256:aa" (by decide)
      ⟨baseLayer, by simp [topLayer, midLayer, roLayer.ancestors], rfl⟩ (by decide)⟩

/-- C9: `TarStreamFrom` asked for the empty chain identifier never returns the
error of a non-parent and always calls `Diff`; it returns exactly the result of
`Diff(L.cacheID, "")`, a diff against no base, from the one call it makes. The
chain identifiers of the nodes are what the struct comment says they are, a
`diffID` or a sha256 digest, and so not empty (the hypothesis of the last
part). -/
theorem C9_TarStreamFrom_empty_chainID {γ : Type}
    (Diff : String → String → Option γ × Option GoError) (rl : roLayer) :
    rl.TarStreamFrom Diff "" ≠
        ((none, some (GoError.errorf (roLayer.notParentMessage ""))), []) ∧
      (rl.TarStreamFrom Diff "").2 ≠ [] ∧
      ((∀ a ∈ rl.ancestors, a.chainID ≠ "") →
        rl.TarStreamFrom Diff "" = (Diff rl.cacheID "", [(rl.cacheID, "")])) := by
  have h : rl.TarStreamFrom Diff "" =
      (Diff rl.cacheID (rl.parentCacheIDFrom ""), [(rl.cacheID, rl.parentCacheIDFrom "")]) := by
    simp [roLayer.TarStreamFrom]
  refine ⟨fun hrej => ?_, by rw [h]; simp, fun hno => ?_⟩
  · rw [h] at hrej
    have h2 := congrArg Prod.snd hrej
    simp at h2
  · rw [h, roLayer.parentCacheIDFrom_eq, roLayer.nearestAncestor_none hno]
    rfl

/-- C9 on a chain of three layers with digests as chain identifiers: the diff
is taken against no base. -/
theorem C9_TarStreamFrom_empty_chainID_witness :
    (∀ a ∈ topLayer.ancestors, a.chainID ≠ "") ∧
      roLayer.TarStreamFrom recordingDiff topLayer "" =
        (recordingDiff topLayer.cacheID "", [(topLayer.cacheID, "")]) ∧
      roLayer.TarStreamFrom recordingDiff topLayer "" =
        ((some ("cache-c", ""), none), [("cache-c", "")]) :=
  ⟨by decide, (C9_TarStreamFrom_empty_chainID recordingDiff topLayer).2.2 (by decide), by decide⟩

/-! ## Reading through the verified reader -/

/-- One `Read` of a verified reader with the hash verifier when the stream
underneath has an answer left: the bytes and the count are those of the
stream, every byte is written to the verifier, and only the error `io.EOF` is
looked at again. -/
theorem verifiedReadCloser.Read_hashVerifier (hash : List Byte → String) (p : List Byte)
    (err : Option GoError) (rest : List (List Byte × Option GoError)) (cr : Option GoError)
    (dgst d : String) (w : List Byte) :
    verifiedReadCloser.Read
        ⟨⟨(p, err) :: rest, cr⟩, dgst, hashVerifier hash, ⟨d, w⟩⟩ =
      (⟨p, p.length,
          if err = some GoError.EOF then
            (if hash (w ++ p) = d then some GoError.EOF
              else some (GoError.errorf (verifyMessage dgst)))
          else err⟩,
        ⟨⟨rest, cr⟩, dgst, hashVerifier hash, ⟨d, w ++ p⟩⟩) := by
  cases p with
  | nil =>
    by_cases he : err = some GoError.EOF
    · by_cases hh : hash w = d <;>
        simp [verifiedReadCloser.Read, ReadCloser.Read, hashVerifier, he, hh]
    · simp [verifiedReadCloser.Read, ReadCloser.Read, hashVerifier, he]
  | cons b bs =>
    have hpos : (0 : Int) < (bs.length : Int) + 1 := by omega
    by_cases he : err = some GoError.EOF
    · by_cases hh : hash (w ++ b :: bs) = d <;>
        simp [verifiedReadCloser.Read, ReadCloser.Read, hashVerifier, he, hh, hpos]
    · simp [verifiedReadCloser.Read, ReadCloser.Read, hashVerifier, he, hpos]

/-- One `Read` of a verified reader with the hash verifier when the stream
underneath has no answer left. -/
theorem verifiedReadCloser.Read_hashVerifier_exhausted (hash : List Byte → String)
    (cr : Option GoError) (dgst d : String) (w : List Byte) :
    verifiedReadCloser.Read ⟨⟨[], cr⟩, dgst, hashVerifier hash, ⟨d, w⟩⟩ =
      (⟨[], 0,
          if hash w = d then some GoError.EOF
            else some (GoError.errorf (verifyMessage dgst))⟩,
        ⟨⟨[], cr⟩, dgst, hashVerifier hash, ⟨d, w⟩⟩) := by
  by_cases hh : hash w = d <;>
    simp [verifiedReadCloser.Read, ReadCloser.Read, hashVerifier, hh]

theorem ReadOutcome.delivered_all (p : List Byte) (err : Option GoError) :
    ReadOutcome.delivered ⟨p, p.length, err⟩ = p := by
  simp [ReadOutcome.delivered]

/-- Reading a stream that delivers `B` and ends, through a verified reader
whose verifier has been given `w` so far: the caller gets exactly `B`, and the
error of the last read is `io.EOF` when the digest of `w ++ B` is the target and
the verification error otherwise. -/
theorem readUntilError_delivers (hash : List Byte → String) :
    ∀ (pending : List (List Byte × Option GoError)) (B : List Byte), Delivers pending B →
    ∀ (cr : Option GoError) (dgst d : String) (w : List Byte) (fuel : Nat),
      pending.length < fuel →
      ∃ vrc1, readUntilError fuel ⟨⟨pending, cr⟩, dgst, hashVerifier hash, ⟨d, w⟩⟩ =
        some (B, (if hash (w ++ B) = d then GoError.EOF
          else GoError.errorf (verifyMessage dgst)), vrc1) := by
  intro pending B hB
  induction hB with
  | exhausted =>
    intro cr dgst d w fuel hf
    obtain ⟨f, rfl⟩ : ∃ f, fuel = f + 1 := ⟨fuel - 1, by omega⟩
    refine ⟨⟨⟨[], cr⟩, dgst, hashVerifier hash, ⟨d, w⟩⟩, ?_⟩
    simp only [readUntilError, verifiedReadCloser.Read_hashVerifier_exhausted,
      List.append_nil]
    by_cases hh : hash w = d <;> simp [hh, ReadOutcome.delivered]
  | eof last rest =>
    intro cr dgst d w fuel hf
    obtain ⟨f, rfl⟩ : ∃ f, fuel = f + 1 := ⟨fuel - 1, by omega⟩
    refine ⟨⟨⟨rest, cr⟩, dgst, hashVerifier hash, ⟨d, w ++ last⟩⟩, ?_⟩
    simp only [readUntilError, verifiedReadCloser.Read_hashVerifier]
    by_cases hh : hash (w ++ last) = d <;> simp [hh, ReadOutcome.delivered]
  | piece c pending B _ ih =>
    intro cr dgst d w fuel hf
    obtain ⟨f, rfl⟩ : ∃ f, fuel = f + 1 := ⟨fuel - 1, by omega⟩
    have hf1 : pending.length < f := by
      simp only [List.length_cons] at hf
      omega
    obtain ⟨vrc1, h1⟩ := ih cr dgst d (w ++ c) f hf1
    refine ⟨vrc1, ?_⟩
    simp only [readUntilError, verifiedReadCloser.Read_hashVerifier]
    simp only [reduceCtorEq, if_false, h1, ReadOutcome.delivered_all, List.append_assoc]

theorem verifyMessage_contains (dgst : String) :
    ∃ pre post : String, verifyMessage dgst = pre ++ dgst ++ post :=
  ⟨"could not verify layer data for: ",
    ". This may be because internal files in the layer store were modified. " ++
    "Re-pulling or rebuilding this image may resolve the issue", by
      simp [verifyMessage, String.append_assoc]⟩

/-- C2: when the layer store opens a stream that delivers the bytes `B`, in any
pieces, and then ends with no other error, `TarStream` returns a reader, and
reading it until a read returns an error gives the caller exactly `B`; the
error of that last read is `io.EOF` if and only if the digest of `B` is the
`diffID` of the layer, and otherwise it is the verification error, which names
the `diffID`. -/
theorem C2_TarStream_delivers_and_verifies
    (getTarStream : roLayer → ReadCloser × Option GoError) (hash : List Byte → String)
    (rl : roLayer) (rc : ReadCloser) (B : List Byte)
    (hget : getTarStream rl = (rc, none)) (hB : Delivers rc.pending B) :
    ∃ vrc, rl.TarStream getTarStream hash = (some vrc, none) ∧
      ∀ fuel, rc.pending.length < fuel →
        ∃ e vrc1, readUntilError fuel vrc = some (B, e, vrc1) ∧
          (e = GoError.EOF ↔ hash B = rl.diffID) ∧
          (hash B ≠ rl.diffID → e = GoError.errorf (verifyMessage rl.diffID)) ∧
          ∃ pre post : String, verifyMessage rl.diffID = pre ++ rl.diffID ++ post := by
  refine ⟨(newVerifiedReadCloser hash rc rl.diffID).1, ?_, fun fuel hf => ?_⟩
  · simp [roLayer.TarStream, hget, newVerifiedReadCloser]
  · obtain ⟨vrc1, h1⟩ :=
      readUntilError_delivers hash rc.pending B hB rc.closeResult rl.diffID rl.diffID [] fuel hf
    simp only [List.nil_append] at h1
    refine ⟨_, vrc1, h1, ?_, ?_, verifyMessage_contains rl.diffID⟩
    · by_cases hh : hash B = rl.diffID <;> simp [hh]
    · intro hh
      simp [hh]

/-- C2 on the layer with the `diffID` `sha256:b0`, the toy digest of the bytes
1, 2, 3: a stream with these bytes is read to `io.EOF`, a stream with the bytes
1, 2, 4 is read in full and ends with the verification error. -/
theorem C2_TarStream_delivers_and_verifies_witness :
    (readUntilError 4 (newVerifiedReadCloser toyHash goodStream midLayer.diffID).1).map
        (fun r => (r.1, r.2.1)) = some ([1, 2, 3], GoError.EOF) ∧
    (readUntilError 4 (newVerifiedReadCloser toyHash badStream midLayer.diffID).1).map
        (fun r => (r.1, r.2.1)) =
      some ([1, 2, 4], GoError.errorf (verifyMessage "sha256:b0")) ∧
    ∃ vrc, midLayer.TarStream (fun _ => (goodStream, none)) toyHash = (some vrc, none) ∧
      ∀ fuel, goodStream.pending.length < fuel →
        ∃ e vrc1, readUntilError fuel vrc = some ([1, 2, 3], e, vrc1) ∧
          (e = GoError.EOF ↔ toyHash [1, 2, 3] = midLayer.diffID) ∧
          (toyHash [1, 2, 3] ≠ midLayer.diffID →
            e = GoError.errorf (verifyMessage midLayer.diffID)) ∧
          ∃ pre post : String, verifyMessage midLayer.diffID = pre ++ midLayer.diffID ++ post :=
  ⟨by decide, by rfl,
    C2_TarStream_delivers_and_verifies (fun _ => (goodStream, none)) toyHash midLayer
      goodStream [1, 2, 3] rfl
      (Delivers.piece [1] _ [2, 3] (Delivers.piece [2, 3] _ [] (Delivers.eof [] [])))⟩

/-! ## Errors of the stream underneath, and closing -/

theorem verifiedReadCloser.Read_rc {σ : Type} (vrc : verifiedReadCloser σ) :
    vrc.Read.2.rc = vrc.rc.Read.2 := by
  unfold verifiedReadCloser.Read
  rcases vrc.rc.Read with ⟨⟨p, err⟩, rc1⟩
  dsimp only
  split <;> rfl

theorem ReadCloser.Read_closeResult (rc : ReadCloser) : rc.Read.2.closeResult = rc.closeResult := by
  unfold ReadCloser.Read
  split <;> rfl

theorem verifiedReadCloser.readN_rc {σ : Type} : ∀ (k : Nat) (vrc : verifiedReadCloser σ),
    (vrc.readN k).2.rc = (vrc.rc.readN k).2
  | 0, _ => rfl
  | k + 1, vrc => by
    have ih := verifiedReadCloser.readN_rc k vrc.Read.2
    rw [verifiedReadCloser.Read_rc] at ih
    simpa only [verifiedReadCloser.readN, ReadCloser.readN] using ih

theorem ReadCloser.readN_closeResult : ∀ (k : Nat) (rc : ReadCloser),
    (rc.readN k).2.closeResult = rc.closeResult
  | 0, _ => rfl
  | k + 1, rc => by
    have ih := ReadCloser.readN_closeResult k rc.Read.2
    rw [ReadCloser.Read_closeResult] at ih
    simpa only [ReadCloser.readN] using ih

/-- The outcome of a `Read` in terms of the answer of the stream underneath
and of the `Write` of the verifier. -/
theorem verifiedReadCloser.Read_outcome {σ : Type} (vrc : verifiedReadCloser σ)
    (p : List Byte) (err : Option GoError) (rc1 : ReadCloser)
    (hread : vrc.rc.Read = ((p, err), rc1)) :
    (p = [] → vrc.Read.1.p = p ∧ vrc.Read.1.n = 0 ∧ vrc.Read.2.verifier = vrc.verifier ∧
      (err ≠ some GoError.EOF → vrc.Read.1.err = err)) ∧
    (p ≠ [] → ∀ we, (vrc.methods.Write vrc.verifier p).1.2 = some we →
      vrc.Read.1 = ⟨p, (vrc.methods.Write vrc.verifier p).1.1, some we⟩) ∧
    (p ≠ [] → (vrc.methods.Write vrc.verifier p).1.2 = none →
      vrc.Read.1.p = p ∧ vrc.Read.1.n = p.length ∧
      (err ≠ some GoError.EOF → vrc.Read.1.err = err)) ∧
    (p ≠ [] → vrc.Read.2.verifier = (vrc.methods.Write vrc.verifier p).2) := by
  have hlen : p ≠ [] → (0 : Int) < (p.length : Int) := by
    intro hp
    have := List.length_pos.mpr hp
    omega
  refine ⟨?_, ?_, ?_, ?_⟩
  · intro hp
    subst hp
    unfold verifiedReadCloser.Read
    rw [hread]
    by_cases he : err = some GoError.EOF
    · simp [he]
    · simp [he]
  · intro hp we hw
    unfold verifiedReadCloser.Read
    rw [hread]
    rcases hW : vrc.methods.Write vrc.verifier p with ⟨⟨wn, werr⟩, v1⟩
    rw [hW] at hw
    simp only at hw
    subst hw
    simp [hlen hp, hW]
  · intro hp hw
    unfold verifiedReadCloser.Read
    rw [hread]
    rcases hW : vrc.methods.Write vrc.verifier p with ⟨⟨wn, werr⟩, v1⟩
    rw [hW] at hw
    simp only at hw
    subst hw
    by_cases he : err = some GoError.EOF
    · simp [hlen hp, hW, he]
    · simp [hlen hp, hW, he]
  · intro hp
    unfold verifiedReadCloser.Read
    rw [hread]
    rcases hW : vrc.methods.Write vrc.verifier p with ⟨⟨wn, werr⟩, v1⟩
    cases werr <;> simp [hlen hp, hW]

/-- A `Read` in which the stream underneath returns an error that is neither
`nil` nor `io.EOF`: when the `Write` of the bytes to the verifier does not fail
(it is made only when `n > 0`), the bytes, the count and the error of the
stream are returned; the guard after the `Write` returns the count and the
error of a `Write` that fails; and the outcome is the same whatever `Verified`
would answer. -/
theorem verifiedReadCloser.Read_stream_error {σ : Type} (vrc : verifiedReadCloser σ)
    (p : List Byte) (e : GoError) (rc1 : ReadCloser)
    (hread : vrc.rc.Read = ((p, some e), rc1)) (he : e ≠ GoError.EOF) :
    ((p = [] ∨ (vrc.methods.Write vrc.verifier p).1.2 = none) →
      vrc.Read.1.p = p ∧ vrc.Read.1.n = (p.length : Int) ∧ vrc.Read.1.err = some e) ∧
    (∀ we, p ≠ [] → (vrc.methods.Write vrc.verifier p).1.2 = some we →
      vrc.Read.1 = ⟨p, (vrc.methods.Write vrc.verifier p).1.1, some we⟩) ∧
    (∀ verified : σ → Bool,
      (verifiedReadCloser.Read
        ⟨vrc.rc, vrc.dgst, ⟨vrc.methods.Write, verified⟩, vrc.verifier⟩).1 = vrc.Read.1) := by
  have hne : some e ≠ some GoError.EOF := fun h => he (Option.some.inj h)
  obtain ⟨h0, hfail, hok, -⟩ := verifiedReadCloser.Read_outcome vrc p (some e) rc1 hread
  refine ⟨fun h => ?_, fun we hp hw => hfail hp we hw, fun verified => ?_⟩
  · by_cases hp : p = []
    · obtain ⟨h1, h2, -, h4⟩ := h0 hp
      refine ⟨h1, ?_, h4 hne⟩
      rw [h2, hp]
      rfl
    · rcases h with h | h
      · exact absurd h hp
      · obtain ⟨h1, h2, h3⟩ := hok hp h
        exact ⟨h1, h2, h3 hne⟩
  · unfold verifiedReadCloser.Read
    simp only [hread]
    rcases vrc.methods.Write vrc.verifier p with ⟨⟨wn, werr⟩, v1⟩
    by_cases hn : (0 : Int) < (p.length : Int)
    · cases werr <;> simp [hn, hne]
    · simp [hn, hne]

theorem verifiedReadCloser.Read_methods {σ : Type} (vrc : verifiedReadCloser σ) :
    vrc.Read.2.methods = vrc.methods := by
  unfold verifiedReadCloser.Read
  rcases vrc.rc.Read with ⟨⟨p, err⟩, rc1⟩
  dsimp only
  split <;> rfl

/-- The reads of a verified reader leave it with the verifier methods it was
made with. -/
theorem verifiedReadCloser.readN_methods {σ : Type} : ∀ (k : Nat) (vrc : verifiedReadCloser σ),
    (vrc.readN k).2.methods = vrc.methods
  | 0, _ => rfl
  | k + 1, vrc => by
    have ih := verifiedReadCloser.readN_methods k vrc.Read.2
    rw [verifiedReadCloser.Read_methods] at ih
    exact ih

/-- C11: for every verified reader, which is a reader that
`newVerifiedReadCloser` has made, after any number of reads, and every `Read`
in which the stream underneath returns `(n, err)` with `err` neither `nil` nor
`io.EOF`: the `Read` of the verified reader returns the same bytes, the same
count `n` and the same error `err`, and its outcome is the same whatever
`Verified` would answer, so the digest is not compared and no verification
error is made. -/
theorem C11_Read_passes_stream_error_on (hash : List Byte → String) (rc : ReadCloser)
    (dgst : String) (k : Nat) (p : List Byte) (e : GoError) (rc1 : ReadCloser)
    (hread : ((newVerifiedReadCloser hash rc dgst).1.readN k).2.rc.Read = ((p, some e), rc1))
    (he : e ≠ GoError.EOF) :
    ((newVerifiedReadCloser hash rc dgst).1.readN k).2.Read.1.p = p ∧
    ((newVerifiedReadCloser hash rc dgst).1.readN k).2.Read.1.n = (p.length : Int) ∧
    ((newVerifiedReadCloser hash rc dgst).1.readN k).2.Read.1.err = some e ∧
    (∀ verified : hashVerifierState → Bool,
      (verifiedReadCloser.Read
        ⟨((newVerifiedReadCloser hash rc dgst).1.readN k).2.rc,
          ((newVerifiedReadCloser hash rc dgst).1.readN k).2.dgst,
          ⟨((newVerifiedReadCloser hash rc dgst).1.readN k).2.methods.Write, verified⟩,
          ((newVerifiedReadCloser hash rc dgst).1.readN k).2.verifier⟩).1 =
        ((newVerifiedReadCloser hash rc dgst).1.readN k).2.Read.1) := by
  have hm : ((newVerifiedReadCloser hash rc dgst).1.readN k).2.methods = hashVerifier hash :=
    verifiedReadCloser.readN_methods k _
  obtain ⟨h1, -, h3⟩ := verifiedReadCloser.Read_stream_error _ p e rc1 hread he
  have hw : (((newVerifiedReadCloser hash rc dgst).1.readN k).2.methods.Write
      ((newVerifiedReadCloser hash rc dgst).1.readN k).2.verifier p).1.2 = none := by
    rw [hm]
    rfl
  obtain ⟨hp, hn, herr⟩ := h1 (Or.inr hw)
  exact ⟨hp, hn, herr, h3⟩

/-- C11 on a reader made by `newVerifiedReadCloser`, after one read that went
well, over a stream whose second read stores two bytes and fails. -/
theorem C11_Read_passes_stream_error_on_witness :
    ((newVerifiedReadCloser toyHash lateBrokenStream "sha256:b0").1.readN 1).2.rc.Read =
        (([1, 2], some (GoError.other 7)), { lateBrokenStream with pending := [([3], none)] }) ∧
      GoError.other 7 ≠ GoError.EOF ∧
      ((newVerifiedReadCloser toyHash lateBrokenStream "sha256:b0").1.readN 1).2.Read.1.p =
        [1, 2] ∧
      ((newVerifiedReadCloser toyHash lateBrokenStream "sha256:b0").1.readN 1).2.Read.1.n = 2 ∧
      ((newVerifiedReadCloser toyHash lateBrokenStream "sha256:b0").1.readN 1).2.Read.1.err =
        some (GoError.other 7) ∧
      (newVerifiedReadCloser toyHash brokenStream "sha256:b0").1.Read.1 =
        ⟨[1, 2], 2, some (GoError.other 7)⟩ :=
  ⟨rfl, by decide,
    (C11_Read_passes_stream_error_on toyHash lateBrokenStream "sha256:b0" 1 [1, 2]
      (GoError.other 7) { lateBrokenStream with pending := [([3], none)] } rfl (by decide)).1,
    (C11_Read_passes_stream_error_on toyHash lateBrokenStream "sha256:b0" 1 [1, 2]
      (GoError.other 7) { lateBrokenStream with pending := [([3], none)] } rfl (by decide)).2.1,
    (C11_Read_passes_stream_error_on toyHash lateBrokenStream "sha256:b0" 1 [1, 2]
      (GoError.other 7) { lateBrokenStream with pending := [([3], none)] } rfl
      (by decide)).2.2.1,
    by decide⟩

/-- C12: `Close` of the verified reader returns exactly what `Close` of the
stream underneath returns, in every state of the reader (before any read and
after any number of reads, whatever they returned), and whatever the digest,
the verifier and its state are: the verifier plays no part, and no error is
made by `Close` itself. -/
theorem C12_Close_is_Close_of_stream {σ : Type} (vrc : verifiedReadCloser σ) (k : Nat) :
    vrc.Close = vrc.rc.Close ∧
      (vrc.readN k).2.Close = (vrc.rc.readN k).2.Close ∧
      (vrc.readN k).2.Close = vrc.rc.Close ∧
      (∀ (τ : Type) (dgst : String) (methods : Verifier τ) (verifier : τ),
        verifiedReadCloser.Close ⟨vrc.rc, dgst, methods, verifier⟩ = vrc.Close) ∧
      (vrc.rc.Close = none → (vrc.readN k).2.Close = none) := by
  have h2 : (vrc.readN k).2.Close = (vrc.rc.readN k).2.Close := by
    simp only [verifiedReadCloser.Close, ReadCloser.Close, verifiedReadCloser.readN_rc]
  have h3 : (vrc.readN k).2.Close = vrc.rc.Close := by
    rw [h2]
    simp only [ReadCloser.Close, ReadCloser.readN_closeResult]
  exact ⟨rfl, h2, h3, fun _ _ _ _ => rfl, fun h => by rw [h3, h]⟩

/-- C12 on a reader over a stream with the wrong bytes whose `Close` succeeds:
after one read, and after reading to the verification error, `Close` returns
`nil`. -/
theorem C12_Close_is_Close_of_stream_witness :
    badStream.Close = none ∧
      ((newVerifiedReadCloser toyHash badStream "sha256:b0").1.readN 2).1.map
        (fun o => o.err) = [none, some (GoError.errorf (verifyMessage "sha256:b0"))] ∧
      ((newVerifiedReadCloser toyHash badStream "sha256:b0").1.readN 1).2.Close = none ∧
      ((newVerifiedReadCloser toyHash badStream "sha256:b0").1.readN 2).2.Close = none :=
  ⟨rfl, by rfl,
    (C12_Close_is_Close_of_stream (newVerifiedReadCloser toyHash badStream "sha256:b0").1 1).2.2.2.2
      rfl,
    (C12_Close_is_Close_of_stream (newVerifiedReadCloser toyHash badStream "sha256:b0").1 2).2.2.2.2
      rfl⟩

/-! ## The setter calls of `storeLayer` -/

/-- With the journal switched on, `storeLayer` makes the planned setter calls
in order up to the first that fails, returns the error of that call (`nil` when
none fails) and hands the node back as it was. -/
theorem storeLayer_logged {τ : Type} (tx : MetadataTransaction τ) (t : τ)
    (log0 : List (TxCall × Option GoError)) (layer : roLayer) :
    storeLayer tx.logged (t, log0) layer =
      ((runCalls tx (plannedCalls layer) t).1,
        ((runCalls tx (plannedCalls layer) t).2.1,
          log0 ++ (runCalls tx (plannedCalls layer) t).2.2), layer) := by
  obtain ⟨c, d, par, k, sz, ds, n, r⟩ := layer
  simp only [storeLayer, plannedCalls, MetadataTransaction.logged]
  rcases h1 : tx.SetDiffID t d with ⟨_ | e1, t1⟩
  · rcases h2 : tx.SetSize t1 sz with ⟨_ | e2, t2⟩
    · rcases h3 : tx.SetCacheID t2 k with ⟨_ | e3, t3⟩
      · by_cases hd : ds.Digest = ""
        · cases par with
          | none => simp [runCalls, MetadataTransaction.call, h1, h2, h3, hd]
          | some p =>
            rcases h5 : tx.SetParent t3 p.chainID with ⟨_ | e5, t5⟩ <;>
              simp [runCalls, MetadataTransaction.call, h1, h2, h3, hd, h5]
        · rcases h4 : tx.SetDescriptor t3 ds with ⟨_ | e4, t4⟩
          · cases par with
            | none => simp [runCalls, MetadataTransaction.call, h1, h2, h3, hd, h4]
            | some p =>
              rcases h5 : tx.SetParent t4 p.chainID with ⟨_ | e5, t5⟩ <;>
                simp [runCalls, MetadataTransaction.call, h1, h2, h3, hd, h4, h5]
          · simp [runCalls, MetadataTransaction.call, h1, h2, h3, hd, h4]
      · simp [runCalls, MetadataTransaction.call, h1, h2, h3]
    · simp [runCalls, MetadataTransaction.call, h1, h2]
  · simp [runCalls, MetadataTransaction.call, h1]

/-- Without the journal `storeLayer` returns the same error and leaves the
transaction in the same state. -/
theorem storeLayer_eq_runCalls {τ : Type} (tx : MetadataTransaction τ) (t : τ)
    (layer : roLayer) :
    storeLayer tx t layer =
      ((runCalls tx (plannedCalls layer) t).1, (runCalls tx (plannedCalls layer) t).2.1,
        layer) := by
  obtain ⟨c, d, par, k, sz, ds, n, r⟩ := layer
  simp only [storeLayer, plannedCalls]
  rcases h1 : tx.SetDiffID t d with ⟨_ | e1, t1⟩
  · rcases h2 : tx.SetSize t1 sz with ⟨_ | e2, t2⟩
    · rcases h3 : tx.SetCacheID t2 k with ⟨_ | e3, t3⟩
      · by_cases hd : ds.Digest = ""
        · cases par with
          | none => simp [runCalls, MetadataTransaction.call, h1, h2, h3, hd]
          | some p =>
            rcases h5 : tx.SetParent t3 p.chainID with ⟨_ | e5, t5⟩ <;>
              simp [runCalls, MetadataTransaction.call, h1, h2, h3, hd, h5]
        · rcases h4 : tx.SetDescriptor t3 ds with ⟨_ | e4, t4⟩
          · cases par with
            | none => simp [runCalls, MetadataTransaction.call, h1, h2, h3, hd, h4]
            | some p =>
              rcases h5 : tx.SetParent t4 p.chainID with ⟨_ | e5, t5⟩ <;>
                simp [runCalls, MetadataTransaction.call, h1, h2, h3, hd, h4, h5]
          · simp [runCalls, MetadataTransaction.call, h1, h2, h3, hd, h4]
      · simp [runCalls, MetadataTransaction.call, h1, h2, h3]
    · simp [runCalls, MetadataTransaction.call, h1, h2]
  · simp [runCalls, MetadataTransaction.call, h1]

/-- When no call fails, all the calls are made and the result is `nil`. -/
theorem runCalls_all_ok {τ : Type} (tx : MetadataTransaction τ)
    (hok : ∀ s c, (tx.call s c).1 = none) : ∀ (cs : List TxCall) (t : τ),
    (runCalls tx cs t).1 = none ∧ (runCalls tx cs t).2.2 = cs.map fun c => (c, none)
  | [], _ => ⟨rfl, rfl⟩
  | c :: cs, t => by
    rcases h : tx.call t c with ⟨_ | e, t1⟩
    · obtain ⟨ih1, ih2⟩ := runCalls_all_ok tx hok cs t1
      simp only [runCalls, h, List.map_cons]
      exact ⟨ih1, by rw [ih2]⟩
    · have := hok t c
      rw [h] at this
      exact absurd this (by simp)

/-- The journal of a run: the calls made are a first part of the calls asked
for; the result is `nil` exactly when every call made has succeeded, and then
all the calls were made; a result that is not `nil` is the error of the last
call made, before which every call has succeeded. -/
theorem runCalls_journal {τ : Type} (tx : MetadataTransaction τ) : ∀ (cs : List TxCall) (t : τ),
    ((runCalls tx cs t).2.2.map fun x => x.1) <+: cs ∧
    ((runCalls tx cs t).1 = none ↔ ∀ x ∈ (runCalls tx cs t).2.2, x.2 = none) ∧
    ((runCalls tx cs t).1 = none → ((runCalls tx cs t).2.2.map fun x => x.1) = cs) ∧
    (∀ e, (runCalls tx cs t).1 = some e →
      ∃ pre c, (runCalls tx cs t).2.2 = pre ++ [(c, some e)] ∧ ∀ x ∈ pre, x.2 = none)
  | [], _ => by simp [runCalls]
  | c :: cs, t => by
    rcases h : tx.call t c with ⟨_ | e, t1⟩
    · obtain ⟨ih1, ih2, ih3, ih4⟩ := runCalls_journal tx cs t1
      simp only [runCalls, h, List.map_cons]
      refine ⟨?_, ?_, ?_, ?_⟩
      · exact (List.prefix_cons_inj c).mpr ih1
      · rw [ih2]
        simp
      · intro hn
        rw [ih3 hn]
      · intro e he
        obtain ⟨pre, c1, hlog, hpre⟩ := ih4 e he
        refine ⟨(c, none) :: pre, c1, by rw [hlog]; rfl, ?_⟩
        intro x hx
        rcases List.mem_cons.mp hx with rfl | hx
        · rfl
        · exact hpre x hx
    · simp only [runCalls, h, List.map_cons, List.map_nil]
      refine ⟨?_, by simp, by simp, ?_⟩
      · exact ⟨cs, rfl⟩
      · intro e1 he1
        simp only [Option.some.injEq] at he1
        subst he1
        exact ⟨[], c, rfl, by simp⟩

/-- C13: when every setter of the transaction succeeds, `storeLayer` returns
`nil` and calls, in this order, `SetDiffID(diffID)`, `SetSize(size)`,
`SetCacheID(cacheID)`, then `SetDescriptor(descriptor)` exactly when the digest
of the descriptor is not empty, then `SetParent(parent.chainID)` exactly when
the node has a parent, and nothing else. -/
theorem C13_storeLayer_call_sequence {τ : Type} (tx : MetadataTransaction τ) (t : τ)
    (layer : roLayer) (hok : ∀ s c, (tx.call s c).1 = none) :
    (storeLayer tx t layer).1 = none ∧
    (storeLayer tx.logged (t, []) layer).1 = none ∧
    ((storeLayer tx.logged (t, []) layer).2.1.2.map fun x => x.1) =
      [TxCall.SetDiffID layer.diffID, TxCall.SetSize layer.size,
        TxCall.SetCacheID layer.cacheID] ++
      (if layer.descriptor.Digest ≠ "" then [TxCall.SetDescriptor layer.descriptor] else []) ++
      (match layer.parent with
        | none => []
        | some p => [TxCall.SetParent p.chainID]) := by
  obtain ⟨h1, h2⟩ := runCalls_all_ok tx hok (plannedCalls layer) t
  refine ⟨by rw [storeLayer_eq_runCalls, h1], by rw [storeLayer_logged, h1], ?_⟩
  rw [storeLayer_logged, h2]
  simp only [List.nil_append, List.map_map]
  have : ((fun x : TxCall × Option GoError => x.1) ∘ fun c => (c, (none : Option GoError))) = id :=
    rfl
  rw [this, List.map_id]
  rfl

/-- C13 on a layer with a descriptor and a parent, and on a base layer with an
empty descriptor. -/
theorem C13_storeLayer_call_sequence_witness :
    (∀ s c, (okTx.call s c).1 = none) ∧
    ((storeLayer okTx.logged ((), []) describedLayer).2.1.2.map fun x => x.1) =
      [TxCall.SetDiffID "sha256:b0", TxCall.SetSize 7, TxCall.SetCacheID "cache-b",
        TxCall.SetDescriptor ⟨"application/tar", 7, "sha256:dd"⟩,
        TxCall.SetParent "sha256:aa"] ∧
    ((storeLayer okTx.logged ((), []) baseLayer).2.1.2.map fun x => x.1) =
      [TxCall.SetDiffID "sha256:aa", TxCall.SetSize 5, TxCall.SetCacheID "cache-a"] :=
  ⟨fun s c => by cases c <;> rfl,
    (C13_storeLayer_call_sequence okTx () describedLayer (fun s c => by cases c <;> rfl)).2.2,
    by decide⟩

/-- C14: whatever the transaction does, `storeLayer` makes the planned setter
calls in order and stops at the first that fails: a call that has failed is the
last call made, every call before it has succeeded, and its error is what
`storeLayer` returns; `storeLayer` returns `nil` exactly when every call it has
made has succeeded; and the node is handed back as it was. -/
theorem C14_storeLayer_stops_at_first_error {τ : Type} (tx : MetadataTransaction τ) (t : τ)
    (layer : roLayer) :
    (((storeLayer tx.logged (t, []) layer).2.1.2.map fun x => x.1) <+: plannedCalls layer) ∧
    (∀ x ∈ (storeLayer tx.logged (t, []) layer).2.1.2, x.2 ≠ none →
      (storeLayer tx.logged (t, []) layer).1 = x.2 ∧
      ∃ pre, (storeLayer tx.logged (t, []) layer).2.1.2 = pre ++ [x] ∧ ∀ y ∈ pre, y.2 = none) ∧
    ((storeLayer tx.logged (t, []) layer).1 = none ↔
      ∀ x ∈ (storeLayer tx.logged (t, []) layer).2.1.2, x.2 = none) ∧
    (storeLayer tx t layer).1 = (storeLayer tx.logged (t, []) layer).1 ∧
    (storeLayer tx t layer).2.2 = layer ∧
    (storeLayer tx.logged (t, []) layer).2.2 = layer := by
  obtain ⟨h1, h2, -, h4⟩ := runCalls_journal tx (plannedCalls layer) t
  rw [storeLayer_logged, storeLayer_eq_runCalls]
  simp only [List.nil_append]
  refine ⟨h1, ?_, h2, trivial, trivial, trivial⟩
  intro x hx hne
  cases hr : (runCalls tx (plannedCalls layer) t).1 with
  | none => exact absurd (h2.mp hr x hx) hne
  | some e =>
    obtain ⟨pre, c, hlog, hpre⟩ := h4 e hr
    rw [hlog] at hx
    rcases List.mem_append.mp hx with hx | hx
    · exact absurd (hpre x hx) hne
    · simp only [List.mem_singleton] at hx
      subst hx
      exact ⟨rfl, pre, hlog, hpre⟩

/-- C14 on a transaction whose `SetCacheID` fails: the error is returned, the
failing call is the third and last call, and the node is as before. -/
theorem C14_storeLayer_stops_at_first_error_witness :
    (storeLayer cacheFailTx.logged ((), []) describedLayer).2.1.2 =
      [(TxCall.SetDiffID "sha256:b0", none), (TxCall.SetSize 7, none),
        (TxCall.SetCacheID "cache-b", some (GoError.other 3))] ∧
    (storeLayer cacheFailTx.logged ((), []) describedLayer).1 = some (GoError.other 3) ∧
    (storeLayer cacheFailTx () describedLayer).1 = some (GoError.other 3) :=
  ⟨by decide,
    ((C14_storeLayer_stops_at_first_error cacheFailTx () describedLayer).2.1
      (TxCall.SetCacheID "cache-b", some (GoError.other 3)) (by decide) (by decide)).1,
    by decide⟩

/-! ## Parent, frame and completion of the operations -/

/-- C15: `Parent` returns the `nil` interface if and only if the node has no
parent, and never an interface that holds a `nil` pointer; for a node with the
parent `P` it returns the interface value pointing to `P`, so that `ChainID`,
`DiffID`, `Size` and `depth` of what it returns are those of `P`. -/
theorem C15_Parent_nil_iff_no_parent (rl : roLayer) :
    (rl.Parent = LayerView.nilInterface ↔ rl.parent = none) ∧
    (rl.Parent.isNil = true ↔ rl.parent = none) ∧
    rl.Parent ≠ LayerView.roLayerPtr none ∧
    ∀ p, rl.parent = some p →
      rl.Parent = LayerView.roLayerPtr (some p) ∧
      rl.Parent.ChainID = some p.ChainID ∧ rl.Parent.DiffID = some p.DiffID ∧
      rl.Parent.Size = some p.Size ∧ rl.Parent.depth = some p.depth := by
  cases h : rl.parent with
  | none => simp [roLayer.Parent, h, LayerView.isNil]
  | some q =>
    simp [roLayer.Parent, h, LayerView.isNil, LayerView.ChainID, LayerView.DiffID,
      LayerView.Size, LayerView.depth, LayerView.node]

/-- C15 on a base layer and on the layer two steps above it. -/
theorem C15_Parent_nil_iff_no_parent_witness :
    baseLayer.Parent.isNil = true ∧
      topLayer.Parent.isNil = false ∧
      topLayer.Parent.ChainID = some "sha256:bb" ∧
      topLayer.Parent.DiffID = some "sha256:b0" ∧
      topLayer.Parent.Size = some (12, none) ∧
      topLayer.Parent.depth = some 2 ∧
      topLayer.Parent.ChainID = some midLayer.ChainID :=
  ⟨(C15_Parent_nil_iff_no_parent baseLayer).2.1.mpr rfl, by decide, by decide, by decide,
    by decide, by decide,
    ((C15_Parent_nil_iff_no_parent topLayer).2.2.2 midLayer rfl).2.1⟩

/-- C16: an operation of a node that returns leaves `chainID`, `diffID`,
`size`, `cacheID` and `parent` of the node as they were (and `descriptor` and
`referenceCount` as well); every operation other than `getReference` and
`deleteReference` leaves the whole node and the heap as they were, so these two
are the only ones that change anything, and what they change is the map
`references`. -/
theorem C16_operations_keep_identity (op : NodeOp) (rl : roLayer) (hp : Heap)
    (r : NodeResult) (rl1 : roLayer) (hp1 : Heap) (h : op.run rl hp = some (r, rl1, hp1)) :
    rl1.chainID = rl.chainID ∧ rl1.diffID = rl.diffID ∧ rl1.size = rl.size ∧
      rl1.cacheID = rl.cacheID ∧ rl1.parent = rl.parent ∧
      rl1.descriptor = rl.descriptor ∧ rl1.referenceCount = rl.referenceCount ∧
      (op ≠ NodeOp.getReference → (∀ ref, op ≠ NodeOp.deleteReference ref) →
        rl1 = rl ∧ hp1 = hp) := by
  cases op with
  | getReference =>
    cases hr : rl.references with
    | none => simp [NodeOp.run, roLayer.getReference, hr] at h
    | some refs =>
      simp only [NodeOp.run, roLayer.getReference_some rl hp refs hr, Option.some.injEq,
        Prod.mk.injEq] at h
      obtain ⟨-, rfl, -⟩ := h
      exact ⟨rfl, rfl, rfl, rfl, rfl, rfl, rfl, fun hne => absurd rfl hne⟩
  | deleteReference ref =>
    simp only [NodeOp.run, Option.some.injEq, Prod.mk.injEq] at h
    obtain ⟨-, rfl, -⟩ := h
    cases hr : rl.references with
    | none =>
      rw [roLayer.deleteReference_none rl ref hr]
      exact ⟨rfl, rfl, rfl, rfl, rfl, rfl, rfl, fun _ hne => absurd rfl (hne ref)⟩
    | some refs =>
      rw [roLayer.deleteReference_some rl ref refs hr]
      exact ⟨rfl, rfl, rfl, rfl, rfl, rfl, rfl, fun _ hne => absurd rfl (hne ref)⟩
  | hasReference ref | hasReferences | ChainID | DiffID | Parent | Size | DiffSize | depth =>
    simp only [NodeOp.run, Option.some.injEq, Prod.mk.injEq] at h
    obtain ⟨-, rfl, rfl⟩ := h
    exact ⟨rfl, rfl, rfl, rfl, rfl, rfl, rfl, fun _ _ => ⟨rfl, rfl⟩⟩

/-- C16 at `getReference` and at `Size` on a layer with a parent. -/
theorem C16_operations_keep_identity_witness :
    (∃ r rl1 hp1, NodeOp.getReference.run midLayer ⟨0⟩ = some (r, rl1, hp1) ∧
      rl1.chainID = midLayer.chainID ∧ rl1.diffID = midLayer.diffID ∧
      rl1.size = midLayer.size ∧ rl1.cacheID = midLayer.cacheID ∧
      rl1.parent = midLayer.parent ∧ rl1.lenReferences = 1) ∧
    (∃ r rl1 hp1, NodeOp.Size.run midLayer ⟨0⟩ = some (r, rl1, hp1) ∧ rl1.parent = midLayer.parent) :=
  ⟨⟨_, _, _, rfl,
      (C16_operations_keep_identity NodeOp.getReference midLayer ⟨0⟩ _ _ _ rfl).1,
      rfl, rfl, rfl, rfl, by decide⟩,
    ⟨_, _, _, rfl,
      (C16_operations_keep_identity NodeOp.Size midLayer ⟨0⟩ _ _ _ rfl).2.2.2.2.1⟩⟩

/-- C17, as stated, fails: on a node whose `references` map was never made,
`getReference` panics at the assignment to the map. -/
theorem C17_getReference_nil_map_counterexample :
    nilMapLayer.references = none ∧
      (nilMapLayer.getReference ⟨0⟩).isNone = true ∧
      (NodeOp.getReference.run nilMapLayer ⟨0⟩).isNone = true := by
  refine ⟨rfl, rfl, rfl⟩

/-- C17, amended: `deleteReference` completes without error or panic for every
node and every handle, whatever the state of the `references` map, and on a map
that was never made it does nothing; `getReference` completes without error or
panic exactly when the `references` map has been made, and panics on a map that
was never made. -/
theorem C17_reference_calls_complete (rl : roLayer) (hp : Heap) :
    ((rl.getReference hp).isSome = true ↔ rl.references ≠ none) ∧
      ((NodeOp.getReference.run rl hp).isSome = true ↔ rl.references ≠ none) ∧
      (rl.references = none → rl.getReference hp = none) ∧
      ∀ ref, ((NodeOp.deleteReference ref).run rl hp).isSome = true ∧
        (rl.references = none → rl.deleteReference ref = rl) := by
  cases hr : rl.references with
  | none =>
    simp [NodeOp.run, roLayer.getReference, roLayer.deleteReference, hr]
  | some refs =>
    simp [NodeOp.run, roLayer.getReference, hr]

/-- C17 on a node with an empty map, where `getReference` returns, and on a
node whose map was never made, where `deleteReference` does nothing. -/
theorem C17_reference_calls_complete_witness :
    (baseLayer.getReference ⟨0⟩).isSome = true ∧
      nilMapLayer.deleteReference (Layer.cacheRef 0) = nilMapLayer :=
  ⟨(C17_reference_calls_complete baseLayer ⟨0⟩).1.mpr (by simp [baseLayer]),
    ((C17_reference_calls_complete nilMapLayer ⟨0⟩).2.2.2 (Layer.cacheRef 0)).2 rfl⟩

/-! ## Chain identifiers of the nodes of the store -/

theorem ComputeChainID_ne_empty (hash : String → String) (hh : ∀ s, hash s ≠ "")
    (parentChainID : ChainID) (diffID : DiffID) (hd : diffID ≠ "") :
    ComputeChainID hash parentChainID diffID ≠ "" := by
  unfold ComputeChainID
  split
  · exact hd
  · exact hh _

theorem toyChainHash_ne_empty (s : String) : toyChainHash s ≠ "" := by
  intro h
  have hl := congrArg String.length h
  simp [toyChainHash, String.length_append] at hl
  have : ("sha256:" : String).length = 7 := by decide
  omega

/-- C18: for a node of the store, whose chain identifiers the store computes
with `ComputeChainID`, digests being non-empty strings: `ChainID` equals
`DiffID` when the node has no parent, and equals the hash of
`ChainID(parent) + " " + DiffID` when it has a parent. -/
theorem C18_ChainID_from_parent_and_DiffID (hash : String → String) (rl : roLayer)
    (hh : ∀ s, hash s ≠ "") (hs : rl.fromStore hash = true)
    (hd : ∀ p, rl.parent = some p → p.diffID ≠ "") :
    (rl.parent = none → rl.ChainID = rl.DiffID) ∧
      (∀ p, rl.parent = some p → rl.ChainID = hash (p.ChainID ++ " " ++ rl.DiffID)) := by
  obtain ⟨c, d, par, k, sz, ds, n, r⟩ := rl
  cases par with
  | none =>
    simp only [roLayer.fromStore, decide_eq_true_eq] at hs
    refine ⟨fun _ => ?_, fun p hp => by simp at hp⟩
    simp [roLayer.ChainID, roLayer.DiffID, hs, ComputeChainID]
  | some q =>
    simp only [roLayer.fromStore, Bool.and_eq_true, decide_eq_true_eq] at hs
    obtain ⟨hc, hq⟩ := hs
    refine ⟨fun h => by simp at h, fun p hp => ?_⟩
    simp only [Option.some.injEq] at hp
    subst hp
    have hqd : q.diffID ≠ "" := hd q rfl
    have hqc : q.chainID ≠ "" := by
      obtain ⟨c1, d1, par1, k1, sz1, ds1, n1, r1⟩ := q
      have hqd1 : d1 ≠ "" := hqd
      cases par1 with
      | none =>
        simp only [roLayer.fromStore, decide_eq_true_eq] at hq
        show c1 ≠ ""
        rw [hq]
        exact ComputeChainID_ne_empty hash hh _ _ hqd1
      | some q1 =>
        simp only [roLayer.fromStore, Bool.and_eq_true, decide_eq_true_eq] at hq
        show c1 ≠ ""
        rw [hq.1]
        exact ComputeChainID_ne_empty hash hh _ _ hqd1
    simp [roLayer.ChainID, roLayer.DiffID, hc, ComputeChainID, hqc]

/-- C18 on a base layer of the store and the layer the store makes on top of
it, with the toy hash. -/
theorem C18_ChainID_from_parent_and_DiffID_witness :
    storeChild.fromStore toyChainHash = true ∧
      storeBase.ChainID = storeBase.DiffID ∧
      storeChild.ChainID = toyChainHash (storeBase.ChainID ++ " " ++ storeChild.DiffID) ∧
      storeChild.ChainID = "sha256:sha256:aa sha256:b0" :=
  ⟨by decide,
    (C18_ChainID_from_parent_and_DiffID toyChainHash storeBase toyChainHash_ne_empty
      (by decide) (fun p hp => by simp [storeBase, baseLayer] at hp)).1 rfl,
    (C18_ChainID_from_parent_and_DiffID toyChainHash storeChild toyChainHash_ne_empty
      (by decide) (fun p hp => by
        have : p = storeBase := by
          simp only [storeChild, Option.some.injEq] at hp
          exact hp.symm
        subst this
        decide)).2 storeBase rfl,
    by decide⟩

/-! ## What the verifier is given -/

theorem concatAll_append (xs ys : List (List Byte)) :
    concatAll (xs ++ ys) = concatAll xs ++ concatAll ys := by
  induction xs with
  | nil => rfl
  | cons x xs ih => simp [concatAll, ih]

/-- One `Read` of a verified reader whose verifier keeps a journal: the journal
grows by the `Write` made, the outcome and the state of the verifier are those
of the reader without journal, and when the `Write` made (if any) has not
failed, the bytes written are the bytes given to the caller, which with their
count are those of the stream underneath. -/
theorem verifiedReadCloser.Read_recording {σ : Type} (m : Verifier σ) (rc : ReadCloser)
    (dgst : String) (s : σ) (log : List WriteCall) :
    ∃ (new : List WriteCall) (s1 : σ),
      (verifiedReadCloser.Read ⟨rc, dgst, m.recording, (s, log)⟩).2 =
        ⟨rc.Read.2, dgst, m.recording, (s1, log ++ new)⟩ ∧
      (verifiedReadCloser.Read ⟨rc, dgst, m, s⟩).2 = ⟨rc.Read.2, dgst, m, s1⟩ ∧
      (verifiedReadCloser.Read ⟨rc, dgst, m.recording, (s, log)⟩).1 =
        (verifiedReadCloser.Read ⟨rc, dgst, m, s⟩).1 ∧
      ((∀ c ∈ new, c.err = none) →
        concatAll (new.map fun c => c.p) =
          (verifiedReadCloser.Read ⟨rc, dgst, m.recording, (s, log)⟩).1.delivered ∧
        (verifiedReadCloser.Read ⟨rc, dgst, m.recording, (s, log)⟩).1.p = rc.Read.1.1 ∧
        (verifiedReadCloser.Read ⟨rc, dgst, m.recording, (s, log)⟩).1.n =
          (rc.Read.1.1.length : Int)) := by
  rcases hR : rc.Read with ⟨⟨p, err⟩, rc1⟩
  by_cases hp : (0 : Int) < (p.length : Int)
  · rcases hW : m.Write s p with ⟨⟨wn, werr⟩, v1⟩
    refine ⟨[⟨p, wn, werr⟩], v1, ?_⟩
    cases werr with
    | none =>
      simp [verifiedReadCloser.Read, Verifier.recording, hR, hW, hp, ReadOutcome.delivered,
        concatAll]
    | some we =>
      simp [verifiedReadCloser.Read, Verifier.recording, hR, hW, hp]
  · have hnil : p = [] := by
      cases p with
      | nil => rfl
      | cons b bs =>
        simp only [List.length_cons] at hp
        omega
    subst hnil
    refine ⟨[], s, ?_⟩
    simp [verifiedReadCloser.Read, Verifier.recording, hR, ReadOutcome.delivered, concatAll]

theorem verifiedReadCloser.readN_succ {σ : Type} (k : Nat) (vrc : verifiedReadCloser σ) :
    vrc.readN (k + 1) = (vrc.Read.1 :: (vrc.Read.2.readN k).1, (vrc.Read.2.readN k).2) :=
  rfl

theorem ReadCloser.readN_step (k : Nat) (rc : ReadCloser) :
    rc.readN (k + 1) = (rc.Read.1 :: (rc.Read.2.readN k).1, (rc.Read.2.readN k).2) :=
  rfl

/-- Any number of reads of a verified reader whose verifier keeps a journal:
the journal only grows, the outcomes are those of the reader without journal,
and when no `Write` added to the journal has failed, the bytes written are, in
order, the bytes given to the caller, and every read has returned the bytes and
the count of the stream underneath. -/
theorem verifiedReadCloser.readN_recording {σ : Type} (m : Verifier σ) (dgst : String) :
    ∀ (k : Nat) (rc : ReadCloser) (s : σ) (log : List WriteCall),
    ∃ new : List WriteCall,
      (verifiedReadCloser.readN k ⟨rc, dgst, m.recording, (s, log)⟩).2.verifier.2 = log ++ new ∧
      (verifiedReadCloser.readN k ⟨rc, dgst, m.recording, (s, log)⟩).1 =
        (verifiedReadCloser.readN k ⟨rc, dgst, m, s⟩).1 ∧
      ((∀ c ∈ new, c.err = none) →
        concatAll (new.map fun c => c.p) =
          concatAll ((verifiedReadCloser.readN k ⟨rc, dgst, m.recording, (s, log)⟩).1.map
            ReadOutcome.delivered) ∧
        ((verifiedReadCloser.readN k ⟨rc, dgst, m.recording, (s, log)⟩).1.map
            fun o => (o.p, o.n)) =
          (rc.readN k).1.map fun r => (r.1, (r.1.length : Int)))
  | 0, rc, s, log => ⟨[], by simp [verifiedReadCloser.readN], rfl, fun _ => ⟨rfl, rfl⟩⟩
  | k + 1, rc, s, log => by
    obtain ⟨new1, s1, hst, hst', hout, hstep⟩ :=
      verifiedReadCloser.Read_recording m rc dgst s log
    obtain ⟨new2, hlog, houts, hrest⟩ :=
      verifiedReadCloser.readN_recording m dgst k rc.Read.2 s1 (log ++ new1)
    refine ⟨new1 ++ new2, ?_, ?_, ?_⟩
    · rw [verifiedReadCloser.readN_succ, hst, hlog, List.append_assoc]
    · rw [verifiedReadCloser.readN_succ, verifiedReadCloser.readN_succ, hst, hst', hout, houts]
    · intro hall
      obtain ⟨h1, h2, h3⟩ := hstep fun c hc => hall c (List.mem_append_left _ hc)
      obtain ⟨h4, h5⟩ := hrest fun c hc => hall c (List.mem_append_right _ hc)
      rw [verifiedReadCloser.readN_succ, ReadCloser.readN_step, hst]
      constructor
      · simp only [List.map_append, List.map_cons, concatAll_append, concatAll, h1, h4]
      · simp only [List.map_cons, h2, h3, h5]

/-- C19: after any number of `Read` calls on a verified reader in which no
`Write` of the verifier has failed, the bytes written to the verifier are
exactly the bytes returned to the caller by those calls, in order, and each
call has returned the bytes and the count that the stream underneath produced.
The writes are read off a journal kept beside the verifier, which does not
change what the reader returns. -/
theorem C19_verifier_is_given_what_the_caller_gets {σ : Type} (m : Verifier σ) (k : Nat)
    (rc : ReadCloser) (dgst : String) (s : σ)
    (hok : ∀ c ∈ (verifiedReadCloser.readN k ⟨rc, dgst, m.recording, (s, [])⟩).2.verifier.2,
      c.err = none) :
    concatAll ((verifiedReadCloser.readN k ⟨rc, dgst, m.recording, (s, [])⟩).2.verifier.2.map
        fun c => c.p) =
      concatAll ((verifiedReadCloser.readN k ⟨rc, dgst, m, s⟩).1.map ReadOutcome.delivered) ∧
    ((verifiedReadCloser.readN k ⟨rc, dgst, m, s⟩).1.map fun o => (o.p, o.n)) =
      (rc.readN k).1.map (fun r => (r.1, (r.1.length : Int))) ∧
    (verifiedReadCloser.readN k ⟨rc, dgst, m.recording, (s, [])⟩).1 =
      (verifiedReadCloser.readN k ⟨rc, dgst, m, s⟩).1 := by
  obtain ⟨new, hlog, houts, hrest⟩ := verifiedReadCloser.readN_recording m dgst k rc s []
  rw [hlog] at hok
  simp only [List.nil_append] at hok hlog
  obtain ⟨h1, h2⟩ := hrest hok
  rw [hlog, ← houts]
  exact ⟨h1, h2, rfl⟩

/-- C19 over three reads of a stream with the bytes 1, 2, 3, through the hash
verifier: the verifier is given 1 and then 2, 3, which is what the caller
gets. -/
theorem C19_verifier_is_given_what_the_caller_gets_witness :
    ((verifiedReadCloser.readN 3
        ⟨goodStream, "sha256:b0", (hashVerifier toyHash).recording,
          (⟨"sha256:b0", []⟩, [])⟩).2.verifier.2.map fun c => c.p) = [[1], [2, 3]] ∧
    concatAll ((verifiedReadCloser.readN 3
        ⟨goodStream, "sha256:b0", (hashVerifier toyHash).recording,
          (⟨"sha256:b0", []⟩, [])⟩).2.verifier.2.map fun c => c.p) =
      concatAll ((verifiedReadCloser.readN 3
        ⟨goodStream, "sha256:b0", hashVerifier toyHash, ⟨"sha256:b0", []⟩⟩).1.map
          ReadOutcome.delivered) ∧
    concatAll ((verifiedReadCloser.readN 3
        ⟨goodStream, "sha256:b0", hashVerifier toyHash, ⟨"sha256:b0", []⟩⟩).1.map
          ReadOutcome.delivered) = [1, 2, 3] :=
  ⟨by decide,
    (C19_verifier_is_given_what_the_caller_gets (hashVerifier toyHash) 3 goodStream "sha256:b0"
      ⟨"sha256:b0", []⟩ (by decide)).1,
    by decide⟩

/-! ## The exact condition of `TarStreamFrom` -/

/-- The loop of `TarStreamFrom` ends with an empty `parentCacheID` exactly when
no ancestor has the chain identifier asked for or the nearest one that has it
has an empty storage locator. -/
theorem roLayer.parentCacheIDFrom_eq_empty_iff (rl : roLayer) (c : Layer17.ChainID) :
    rl.parentCacheIDFrom c = "" ↔
      ((∀ a ∈ rl.ancestors, a.chainID ≠ c) ∨
        ∃ A, rl.nearestAncestor c = some A ∧ A.cacheID = "") := by
  rw [roLayer.parentCacheIDFrom_eq]
  cases hf : rl.nearestAncestor c with
  | none =>
    have hno : ∀ a ∈ rl.ancestors, a.chainID ≠ c := by
      simpa only [roLayer.nearestAncestor, List.find?_eq_none, decide_eq_true_eq] using hf
    exact ⟨fun _ => Or.inl hno, fun _ => rfl⟩
  | some A =>
    have hmem : A ∈ rl.ancestors := List.mem_of_find?_eq_some hf
    have hAc : A.chainID = c := by
      have := List.find?_some hf
      simpa using this
    constructor
    · intro h
      exact Or.inr ⟨A, rfl, by simpa using h⟩
    · rintro (h | ⟨B, hB, hBc⟩)
      · exact absurd hAc (h A hmem)
      · simp only [Option.some.injEq] at hB
        subst hB
        simpa using hBc

/-- C20, as stated, fails in its last sentence: the base layer `blankChainBase`
has the empty chain identifier, no ancestor shares it, and `TarStreamFrom` asked
for the chain identifier of the layer itself is not rejected but returns the
result of `Diff("cache-a", "")`. -/
theorem C20_TarStreamFrom_own_chainID_counterexample :
    blankChainBase.chainID = "" ∧
      (∀ a ∈ blankChainBase.ancestors, a.chainID ≠ blankChainBase.chainID) ∧
      roLayer.TarStreamFrom recordingDiff blankChainBase blankChainBase.chainID =
        (recordingDiff "cache-a" "", [("cache-a", "")]) ∧
      roLayer.TarStreamFrom recordingDiff blankChainBase blankChainBase.chainID ≠
        ((none, some (GoError.errorf (roLayer.notParentMessage blankChainBase.chainID))), []) := by
  decide

/-- C20, amended: `TarStreamFrom(c)` returns the error of a non-parent, without
calling `Diff`, if and only if `c` is not empty and either no ancestor of the
layer (the layer itself left out) has the chain identifier `c` or the nearest
ancestor that has it has an empty storage locator; in every other case it
returns the result of `Diff(L.cacheID, x)`, from the one call it makes, where
`x` is the storage locator of the nearest ancestor with the chain identifier
`c`, and `""` if there is none. In particular `TarStreamFrom(L.chainID)` is
rejected whenever `L.chainID` is not empty and no ancestor shares it. -/
theorem C20_TarStreamFrom_exact_condition {γ : Type}
    (Diff : String → String → Option γ × Option GoError) (rl : roLayer) (c : ChainID) :
    (rl.TarStreamFrom Diff c = ((none, some (GoError.errorf (roLayer.notParentMessage c))), []) ↔
      c ≠ "" ∧ ((∀ a ∈ rl.ancestors, a.chainID ≠ c) ∨
        ∃ A, rl.nearestAncestor c = some A ∧ A.cacheID = "")) ∧
    (¬ (c ≠ "" ∧ ((∀ a ∈ rl.ancestors, a.chainID ≠ c) ∨
        ∃ A, rl.nearestAncestor c = some A ∧ A.cacheID = "")) →
      rl.TarStreamFrom Diff c =
        (Diff rl.cacheID (((rl.nearestAncestor c).map fun a => a.cacheID).getD ""),
          [(rl.cacheID, ((rl.nearestAncestor c).map fun a => a.cacheID).getD "")])) ∧
    (rl.chainID ≠ "" → (∀ a ∈ rl.ancestors, a.chainID ≠ rl.chainID) →
      rl.TarStreamFrom Diff rl.chainID =
        ((none, some (GoError.errorf (roLayer.notParentMessage rl.chainID))), [])) := by
  have hiff : ∀ c : ChainID,
      (rl.TarStreamFrom Diff c =
          ((none, some (GoError.errorf (roLayer.notParentMessage c))), []) ↔
        c ≠ "" ∧ rl.parentCacheIDFrom c = "") := by
    intro c
    by_cases hcond : c ≠ "" ∧ rl.parentCacheIDFrom c = ""
    · simp only [roLayer.TarStreamFrom, hcond, and_self, if_true, ne_eq, not_false_eq_true]
    · have hne : rl.TarStreamFrom Diff c ≠
          ((none, some (GoError.errorf (roLayer.notParentMessage c))), []) := by
        intro h
        have h2 := congrArg Prod.snd h
        simp [roLayer.TarStreamFrom, hcond] at h2
      exact ⟨fun h => absurd h hne, fun h => absurd h hcond⟩
  refine ⟨?_, ?_, ?_⟩
  · rw [hiff c, roLayer.parentCacheIDFrom_eq_empty_iff]
  · intro hnot
    rw [← roLayer.parentCacheIDFrom_eq_empty_iff] at hnot
    have hx := roLayer.parentCacheIDFrom_eq c rl
    simp only [roLayer.TarStreamFrom, hnot, if_false]
    rw [hx]
  · intro hne hno
    rw [hiff rl.chainID, roLayer.parentCacheIDFrom_eq_empty_iff]
    exact ⟨hne, Or.inl hno⟩

/-- C20 on a chain of three layers: asked for its own chain identifier the top
layer is rejected, asked for that of its parent it gets the diff against the
storage locator of the parent. -/
theorem C20_TarStreamFrom_exact_condition_witness :
    topLayer.chainID ≠ "" ∧ (∀ a ∈ topLayer.ancestors, a.chainID ≠ topLayer.chainID) ∧
      roLayer.TarStreamFrom recordingDiff topLayer topLayer.chainID =
        ((none, some (GoError.errorf (roLayer.notParentMessage topLayer.chainID))), []) ∧
      roLayer.TarStreamFrom recordingDiff topLayer "sha256:bb" =
        ((some ("cache-c", "cache-b"), none), [("cache-c", "cache-b")]) :=
  ⟨by decide, by decide,
    (C20_TarStreamFrom_exact_condition recordingDiff topLayer topLayer.chainID).2.2 (by decide)
      (by decide),
    by decide⟩

end Layer17
